import Mathlib

/-!
Shallow embedding of the numerox splitter core (src/numerox/splitter.py):
a family of dataset partitioning strategies sharing an iteration state
machine.  The Dataset collaborator (the numerox Data class) and the random
and fold-generator collaborators (numpy RandomState, sklearn KFold and
StratifiedKFold) are not part of the given sources; the Dataset is modelled
from the specification (sections 3, 4.1 and 6), the random collaborators are
threaded through as explicit function arguments, with KFold fold arithmetic
modelled after the sklearn contract the source relies on.
-/

namespace Numerox

/-- Region label of a row; the specification fixes a small closed set. -/
inductive Region
  | train
  | validation
  | tournament
deriving DecidableEq

/-- Modelled from the spec: one Dataset row, carrying an era identifier
(opaque and totally ordered, rendered as Nat), a region label and an id
standing in for the feature and label payload. -/
structure Row where
  era : Nat
  region : Region
  id : Nat
deriving DecidableEq

/-- Modelled from the spec: a Dataset is a finite sequence of rows; every
query produces a fresh read-only view, here a new list. -/
abbrev Data := List Row

/-- Modelled from the spec: view of the rows whose region label equals r
(the Data getitem with a region name, select_by_region). -/
def Data.getRegion (d : Data) (r : Region) : Data :=
  d.filter (fun x => decide (x.region = r))

/-- Modelled from the spec: view of the rows whose region label is a member
of rs (Data.region_isin). -/
def Data.region_isin (d : Data) (rs : List Region) : Data :=
  d.filter (fun x => decide (x.region ∈ rs))

/-- Modelled from the spec: view of the rows whose era identifier is a
member of es (Data.era_isin); an empty es yields a zero-row view. -/
def Data.era_isin (d : Data) (es : List Nat) : Data :=
  d.filter (fun x => decide (x.era ∈ es))

/-- Modelled from the spec: the deterministic, sorted ascending sequence of
distinct era identifiers present in a dataset (Data.unique_era, which the
specification fixes to a sorted single scan). -/
def Data.unique_era (d : Data) : List Nat :=
  ((d.map Row.era).dedup).insertionSort (fun a b => a ≤ b)

/-- Modelled from the spec: positional row selection (pandas take used by
the stratified splitter). -/
def Data.takeIdx (d : Data) (idx : List Nat) : Data :=
  idx.map (fun i => d.getD i ⟨0, Region.train, 0⟩)

/-- Python exceptions surfaced by the splitter core. -/
inductive PyErr
  | stopIteration
  | valueError
  | runtimeError
  | attributeError
deriving DecidableEq

instance {ε α : Type} [DecidableEq ε] [DecidableEq α] :
    DecidableEq (Except ε α) := fun a b =>
  match a, b with
  | .ok x, .ok y =>
      if h : x = y then isTrue (by rw [h]) else isFalse (by simp [h])
  | .error x, .error y =>
      if h : x = y then isTrue (by rw [h]) else isFalse (by simp [h])
  | .ok _, .error _ => isFalse (by simp)
  | .error _, .ok _ => isFalse (by simp)

/-- Shared splitter state: the iteration counter of the Splitter base class
wrapped around the strategy specific inner state. -/
structure SplitterSt (σ : Type) where
  count : Nat
  inner : σ
deriving DecidableEq

/-- Splitter.reset: sets count back to zero and touches nothing else. -/
def Splitter.reset {σ : Type} (s : SplitterSt σ) : SplitterSt σ :=
  { s with count := 0 }

/-- Guard of Splitter.next: count strictly greater than max_count; none
stands for the numpy infinity used by RollSplitter, which never trips. -/
def exceedsMax (maxCount : Option Int) (count : Nat) : Bool :=
  match maxCount with
  | some m => decide ((count : Int) > m)
  | none => false

/-- Splitter.next: signal StopIteration when the guard trips, otherwise run
next_split; the counter is incremented only on success, while inner state
writes performed by next_split persist even when it raises. -/
def Splitter.next {σ : Type} (maxCount : Option Int)
    (next_split : Nat → σ → Except PyErr (Data × Data) × σ)
    (s : SplitterSt σ) : Except PyErr (Data × Data) × SplitterSt σ :=
  if exceedsMax maxCount s.count then (.error .stopIteration, s)
  else
    match next_split s.count s.inner with
    | (.ok tup, i) => (.ok tup, ⟨s.count + 1, i⟩)
    | (.error e, i) => (.error e, { s with inner := i })

/-- Result of the n-th call (zero indexed) to next, starting from state s. -/
def runOutputs {α : Type} (stp : α → Except PyErr (Data × Data) × α) :
    α → Nat → Except PyErr (Data × Data)
  | s, 0 => (stp s).1
  | s, n + 1 => runOutputs stp (stp s).2 n

/-- State reached after n calls to next, starting from state s. -/
def iterSt {α : Type} (stp : α → Except PyErr (Data × Data) × α) :
    α → Nat → α
  | s, 0 => s
  | s, n + 1 => iterSt stp (stp s).2 n

/-- No era identifier occurs among the rows of both partitions. -/
def eraDisjoint (d1 d2 : Data) : Prop :=
  ∀ r1 ∈ d1, ∀ r2 ∈ d2, r1.era ≠ r2.era

instance (d1 d2 : Data) : Decidable (eraDisjoint d1 d2) := by
  unfold eraDisjoint; infer_instance

/-! ### TournamentSplitter, ValidationSplitter, CheatSplitter -/

/-- TournamentSplitter.next_split: fit is the train region, predict the
tournament region. -/
def TournamentSplitter.next_split (d : Data) :
    Except PyErr (Data × Data) × Data :=
  (.ok (d.getRegion Region.train, d.getRegion Region.tournament), d)

def TournamentSplitter.init (d : Data) : SplitterSt Data := ⟨0, d⟩

def TournamentSplitter.next (s : SplitterSt Data) :
    Except PyErr (Data × Data) × SplitterSt Data :=
  Splitter.next (some 0) (fun _ => TournamentSplitter.next_split) s

/-- ValidationSplitter.next_split: fit is the train region, predict the
validation region. -/
def ValidationSplitter.next_split (d : Data) :
    Except PyErr (Data × Data) × Data :=
  (.ok (d.getRegion Region.train, d.getRegion Region.validation), d)

def ValidationSplitter.init (d : Data) : SplitterSt Data := ⟨0, d⟩

def ValidationSplitter.next (s : SplitterSt Data) :
    Except PyErr (Data × Data) × SplitterSt Data :=
  Splitter.next (some 0) (fun _ => ValidationSplitter.next_split) s

/-- CheatSplitter.next_split: fit is train plus validation, predict the
validation region. -/
def CheatSplitter.next_split (d : Data) :
    Except PyErr (Data × Data) × Data :=
  (.ok (d.region_isin [Region.train, Region.validation],
        d.getRegion Region.validation), d)

def CheatSplitter.init (d : Data) : SplitterSt Data := ⟨0, d⟩

def CheatSplitter.next (s : SplitterSt Data) :
    Except PyErr (Data × Data) × SplitterSt Data :=
  Splitter.next (some 0) (fun _ => CheatSplitter.next_split) s

/-! ### SplitSplitter -/

/-- Python int conversion of a nonnegative or negative rational: truncation
toward zero (floor for nonnegative arguments, ceiling for negative ones). -/
def pyInt (q : ℚ) : Int := if 0 ≤ q then q.floor else q.ceil

/-- Python slice endpoint semantics for xs[:n] and xs[n:]: a negative
endpoint counts from the end and everything is clamped at zero. -/
def pySliceIdx (len : Nat) (n : Int) : Nat :=
  (if 0 ≤ n then n else (len : Int) + n).toNat

/-- Parameter bag of SplitSplitter; fit_fraction is a rational standing for
the Python float. -/
structure SplitParams where
  data : Data
  fit_fraction : ℚ
  seed : Nat
  train_only : Bool
deriving DecidableEq

/-- Era shuffling and slicing performed by SplitSplitter.next_split: shuffle
the distinct eras of the (optionally train filtered) data with the seeded
generator, then cut at nfit, which is int of fit_fraction times the era
count plus one half.  The random collaborator is the explicit shuffle
argument. -/
def SplitSplitter.eraSplit (shuffle : Nat → List Nat → List Nat)
    (p : SplitParams) : List Nat × List Nat :=
  let data := if p.train_only then p.data.getRegion Region.train else p.data
  let eras := data.unique_era
  let shuffled := shuffle p.seed eras
  let nfit := pyInt (p.fit_fraction * (eras.length : ℚ) + 1/2)
  let k := pySliceIdx shuffled.length nfit
  (shuffled.take k, shuffled.drop k)

/-- SplitSplitter.next_split: a single fit-predict split of the data, by
era membership in the two era slices. -/
def SplitSplitter.next_split (shuffle : Nat → List Nat → List Nat)
    (p : SplitParams) : Except PyErr (Data × Data) × SplitParams :=
  let data := if p.train_only then p.data.getRegion Region.train else p.data
  let es := SplitSplitter.eraSplit shuffle p
  (.ok (data.era_isin es.1, data.era_isin es.2), p)

/-- SplitSplitter constructor: stores the parameter bag, sets max_count to
zero and resets; no parameter validation is performed. -/
def SplitSplitter.init (p : SplitParams) : SplitterSt SplitParams := ⟨0, p⟩

def SplitSplitter.next (shuffle : Nat → List Nat → List Nat)
    (s : SplitterSt SplitParams) :
    Except PyErr (Data × Data) × SplitterSt SplitParams :=
  Splitter.next (some 0) (fun _ p => SplitSplitter.next_split shuffle p) s

/-! ### CVSplitter -/

/-- Parameter bag of CVSplitter; kfold is an Int standing for the Python
int. -/
structure CVParams where
  data : Data
  kfold : Int
  seed : Nat
  train_only : Bool
deriving DecidableEq

/-- Inner state of CVSplitter: the parameter bag plus the lazily cached era
sequence and fold generator (both None until the first call of a run). -/
structure CVState where
  p : CVParams
  eras : Option (List Nat)
  cv : Option (List (Except PyErr (List Nat × List Nat)))
deriving DecidableEq

/-- Sizes of the k folds sklearn KFold builds over n samples: the first
n mod k folds have one extra element. -/
def foldSizes (n k : Nat) : List Nat :=
  (List.range k).map (fun i => if i < n % k then n / k + 1 else n / k)

/-- Cut a list into consecutive chunks of the given sizes. -/
def chunksBySizes : List Nat → List Nat → List (List Nat)
  | [], _ => []
  | s :: ss, l => l.take s :: chunksBySizes ss (l.drop s)

/-- The sklearn KFold generator over n samples with shuffled index order
permuted: each item yields (train indices, test indices), where the test
indices are one chunk of the permuted index sequence and the train indices
are the complement; with more splits than samples the generator raises
ValueError at its first use and is then exhausted.  Fold membership is
produced in sorted index order, as sklearn masks do. -/
def kfoldGen (k : Int) (permuted : List Nat) (n : Nat) :
    List (Except PyErr (List Nat × List Nat)) :=
  if (n : Int) < k then [.error .valueError]
  else
    (chunksBySizes (foldSizes n k.toNat) permuted).map
      (fun chunk =>
        .ok ((List.range n).filter (fun i => decide (i ∉ chunk)),
             (List.range n).filter (fun i => decide (i ∈ chunk))))

/-- Resolution of one fold into a partition pair: indices are mapped through
the cached era sequence and the rows are selected by era membership. -/
def cvSelect (data : Data) (eras : List Nat)
    (fold : List Nat × List Nat) : Data × Data :=
  let era_fit := fold.1.map (fun i => eras.getD i 0)
  let era_predict := fold.2.map (fun i => eras.getD i 0)
  (data.era_isin era_fit, data.era_isin era_predict)

/-- One step of consuming the cached fold generator: an empty generator
signals StopIteration, an error item re-raises and leaves the generator
exhausted, an ok item is resolved through cvSelect. -/
def cvAdvanceGen (data : Data) (eras : List Nat)
    (gen : List (Except PyErr (List Nat × List Nat))) :
    Except PyErr (Data × Data) × List (Except PyErr (List Nat × List Nat)) :=
  match gen with
  | [] => (.error .stopIteration, [])
  | .error e :: rest => (.error e, rest)
  | .ok fold :: rest => (.ok (cvSelect data eras fold), rest)

/-- CVSplitter.next_split: on the first call of a run the data is filtered
to the train region when train_only is set, the era sequence is cached and
the seeded KFold generator is created (KFold construction raises ValueError
when kfold is below two); every call pops one fold.  Note the train filter
is local to the first-call branch: later calls select eras from the raw
data.  The random collaborator is the explicit idxPerm argument giving the
shuffled index order for a seed and a length. -/
def CVSplitter.next_split (idxPerm : Nat → Nat → List Nat) (count : Nat)
    (st : CVState) : Except PyErr (Data × Data) × CVState :=
  let data := st.p.data
  if count = 0 then
    let data := if st.p.train_only then data.getRegion Region.train else data
    let eras := data.unique_era
    if st.p.kfold < 2 then (.error .valueError, { st with eras := some eras })
    else
      let gen := kfoldGen st.p.kfold (idxPerm st.p.seed eras.length) eras.length
      let res := cvAdvanceGen data eras gen
      (res.1, { st with eras := some eras, cv := some res.2 })
  else
    match st.eras, st.cv with
    | some eras, some gen =>
      let res := cvAdvanceGen data eras gen
      (res.1, { st with cv := some res.2 })
    | _, _ => (.error .attributeError, st)

/-- CVSplitter constructor: stores parameters, sets the caches to None and
max_count to kfold; no parameter validation is performed. -/
def CVSplitter.init (p : CVParams) : SplitterSt CVState :=
  ⟨0, ⟨p, none, none⟩⟩

def CVSplitter.next (idxPerm : Nat → Nat → List Nat) (s : SplitterSt CVState) :
    Except PyErr (Data × Data) × SplitterSt CVState :=
  Splitter.next (some s.inner.p.kfold) (CVSplitter.next_split idxPerm) s

/-! ### IgnoreEraCVSplitter -/

/-- Parameter bag of IgnoreEraCVSplitter. -/
structure IgnoreParams where
  data : Data
  kfold : Int
  seed : Nat
  train_only : Bool
deriving DecidableEq

/-- Inner state of IgnoreEraCVSplitter: the parameter bag plus the lazily
cached stratified fold generator. -/
structure IgnoreState where
  p : IgnoreParams
  cv : Option (List (Except PyErr (List Nat × List Nat)))
deriving DecidableEq

/-- One step of consuming the stratified fold generator: indices are
resolved positionally through Data.takeIdx on the given data view. -/
def igAdvanceGen (data : Data)
    (gen : List (Except PyErr (List Nat × List Nat))) :
    Except PyErr (Data × Data) × List (Except PyErr (List Nat × List Nat)) :=
  match gen with
  | [] => (.error .stopIteration, [])
  | .error e :: rest => (.error e, rest)
  | .ok fold :: rest =>
      (.ok (data.takeIdx fold.1, data.takeIdx fold.2), rest)

/-- IgnoreEraCVSplitter.next_split.  Modelled from the spec: the sklearn
StratifiedKFold collaborator is the abstract stratFolds argument, a
deterministic seedable fold generator over the rows of the filtered data
(the sources only call it); StratifiedKFold construction raises ValueError
when kfold is below two.  As in CVSplitter, the train filter is local to
the first-call branch, so later calls take row positions from the raw
data frame. -/
def IgnoreEraCVSplitter.next_split
    (stratFolds : Nat → Int → Data → List (Except PyErr (List Nat × List Nat)))
    (count : Nat) (st : IgnoreState) :
    Except PyErr (Data × Data) × IgnoreState :=
  let data := st.p.data
  if count = 0 then
    let data := if st.p.train_only then data.getRegion Region.train else data
    if st.p.kfold < 2 then (.error .valueError, st)
    else
      let gen := stratFolds st.p.seed st.p.kfold data
      let res := igAdvanceGen data gen
      (res.1, { st with cv := some res.2 })
  else
    match st.cv with
    | some gen =>
      let res := igAdvanceGen data gen
      (res.1, { st with cv := some res.2 })
    | none => (.error .attributeError, st)

/-- IgnoreEraCVSplitter constructor: stores parameters, cache to None,
max_count to kfold; no parameter validation is performed. -/
def IgnoreEraCVSplitter.init (p : IgnoreParams) : SplitterSt IgnoreState :=
  ⟨0, ⟨p, none⟩⟩

def IgnoreEraCVSplitter.next
    (stratFolds : Nat → Int → Data → List (Except PyErr (List Nat × List Nat)))
    (s : SplitterSt IgnoreState) :
    Except PyErr (Data × Data) × SplitterSt IgnoreState :=
  Splitter.next (some s.inner.p.kfold)
    (IgnoreEraCVSplitter.next_split stratFolds) s

/-! ### RollSplitter -/

/-- Parameter bag of RollSplitter; windows and step are Int standing for
Python ints. -/
structure RollParams where
  data : Data
  fit_window : Int
  predict_window : Int
  step : Int
  train_only : Bool
deriving DecidableEq

/-- Inner state of RollSplitter: the parameter bag plus the lazily cached
era sequence.  The source also sets a cv attribute to None but never reads
it again in this class, so it is omitted. -/
structure RollState where
  p : RollParams
  eras : Option (List Nat)
deriving DecidableEq

/-- The per-iteration index arithmetic of RollSplitter.next_split:
fit range [f_idx1, f_idx2), predict range [p_idx1, p_idx2) with
f_idx1 = count * step, f_idx2 = f_idx1 + fit_window, p_idx1 = f_idx2 and
p_idx2 = p_idx1 + predict_window. -/
def rollIndices (count : Nat) (p : RollParams) : Int × Int × Int × Int :=
  let f1 : Int := (count : Int) * p.step
  let f2 : Int := f1 + p.fit_window
  let p1 : Int := f2
  let p2 : Int := p1 + p.predict_window
  (f1, f2, p1, p2)

/-- The assignment loop of RollSplitter.next_split over era positions i
(here carried as an Int offset), appending each era hit by the fit range to
the fit list and each era hit by the predict range to the predict list; a
position hit by both ranges raises the internal RuntimeError. -/
def rollAssignAux (f1 f2 p1 p2 : Int) :
    Int → List Nat → Except PyErr (List Nat × List Nat)
  | _, [] => .ok ([], [])
  | i, e :: rest =>
    let fhit : Bool := decide (i ≥ f1) && decide (i < f2)
    let phit : Bool := decide (i ≥ p1) && decide (i < p2)
    if fhit && phit then .error .runtimeError
    else
      match rollAssignAux f1 f2 p1 p2 (i + 1) rest with
      | .error err => .error err
      | .ok (fs, ps) =>
          .ok ((if fhit then [e] else []) ++ fs,
               (if phit then [e] else []) ++ ps)

/-- Selection of the list elements whose position (carried as the Int
offset i) lies in the half open range [a, b); this is the error free
residue of rollAssignAux for one range. -/
def rangeSel (a b : Int) : Int → List Nat → List Nat
  | _, [] => []
  | i, e :: rest =>
      (if decide (i ≥ a) && decide (i < b) then [e] else []) ++
        rangeSel a b (i + 1) rest

/-- Body of RollSplitter.next_split after the era cache is resolved: bounds
check against the era count, then the assignment loop, then row selection
by era membership. -/
def rollCompute (data : Data) (eras : List Nat) (count : Nat)
    (p : RollParams) : Except PyErr (Data × Data) :=
  let idx := rollIndices count p
  if (eras.length : Int) < idx.2.2.2 then .error .stopIteration
  else
    match rollAssignAux idx.1 idx.2.1 idx.2.2.1 idx.2.2.2 0 eras with
    | .error e => .error e
    | .ok (efit, epre) => .ok (data.era_isin efit, data.era_isin epre)

/-- RollSplitter.next_split: on the first call of a run the data is filtered
to the train region when train_only is set and the era sequence is cached
(before the bounds check, so the cache is written even when the call then
signals StopIteration); later calls reuse the cache but select rows from
the raw data. -/
def RollSplitter.next_split (count : Nat) (st : RollState) :
    Except PyErr (Data × Data) × RollState :=
  if count = 0 then
    let data := if st.p.train_only then st.p.data.getRegion Region.train
                else st.p.data
    let eras := data.unique_era
    (rollCompute data eras count st.p, { st with eras := some eras })
  else
    match st.eras with
    | none => (.error .attributeError, st)
    | some eras => (rollCompute st.p.data eras count st.p, st)

/-- RollSplitter constructor: stores parameters, era cache to None and
max_count to numpy infinity; no parameter validation is performed. -/
def RollSplitter.init (p : RollParams) : SplitterSt RollState :=
  ⟨0, ⟨p, none⟩⟩

def RollSplitter.next (s : SplitterSt RollState) :
    Except PyErr (Data × Data) × SplitterSt RollState :=
  Splitter.next none RollSplitter.next_split s

/-- A well formed fold over n positions: both index lists stay below n and
the fit side never meets the predict side. -/
def GoodFold (n : Nat) (f : List Nat × List Nat) : Prop :=
  (∀ i ∈ f.1, i < n) ∧ (∀ j ∈ f.2, j < n) ∧ ∀ i ∈ f.1, i ∉ f.2

/-- All pending ok items of a fold generator are well formed folds. -/
def goodAll (n : Nat) (g : List (Except PyErr (List Nat × List Nat))) : Prop :=
  ∀ x ∈ g, ∀ f, x = Except.ok f → GoodFold n f

/-- The era sequence CVSplitter caches on the first call of a run: distinct
eras of the train filtered data when train_only is set, of the raw data
otherwise.  A function of the parameters only. -/
def cvEras (p : CVParams) : List Nat :=
  (if p.train_only then p.data.getRegion Region.train else p.data).unique_era

/-- The fold generator CVSplitter caches on the first call of a run. -/
def cvGen0 (idxPerm : Nat → Nat → List Nat) (p : CVParams) :
    List (Except PyErr (List Nat × List Nat)) :=
  kfoldGen p.kfold (idxPerm p.seed (cvEras p).length) (cvEras p).length

/-- Cache invariant of CVSplitter states: either the fold generator is
still unset, or both caches hold the canonical era sequence and a suffix of
well formed folds. -/
def CVInv (st : CVState) : Prop :=
  st.cv = none ∨
    (∃ g, st.eras = some (cvEras st.p) ∧ st.cv = some g ∧
      goodAll (cvEras st.p).length g)

/-- No pending generator item is a StopIteration error; true of every
generator the splitters install, which signal exhaustion only by running
out of items. -/
def noStopItems (g : List (Except PyErr (List Nat × List Nat))) : Prop :=
  ∀ x ∈ g, x ≠ Except.error PyErr.stopIteration

/-- Cache invariant: an installed CV fold generator has no StopIteration
items. -/
def cvNoStop (st : CVState) : Prop :=
  ∀ g, st.cv = some g → noStopItems g

/-- Cache invariant: an installed stratified fold generator has no
StopIteration items. -/
def igNoStop (st : IgnoreState) : Prop :=
  ∀ g, st.cv = some g → noStopItems g

/-- The fold generator IgnoreEraCVSplitter installs on the first call of a
run: the abstract stratified collaborator applied to the filtered data. -/
def igGen0 (stratFolds : Nat → Int → Data → List (Except PyErr (List Nat × List Nat)))
    (p : IgnoreParams) : List (Except PyErr (List Nat × List Nat)) :=
  stratFolds p.seed p.kfold
    (if p.train_only then p.data.getRegion Region.train else p.data)

/-- The era sequence RollSplitter caches on the first call of a run. -/
def rollEras (p : RollParams) : List Nat :=
  (if p.train_only then p.data.getRegion Region.train else p.data).unique_era

/-- Cache invariant of RollSplitter states: the era cache is unset or holds
the canonical era sequence. -/
def RollInv (st : RollState) : Prop :=
  st.eras = none ∨ st.eras = some (rollEras st.p)

/-! ### Helper lemmas -/

/-- With the predict range starting exactly at the exclusive upper bound of
the fit range, the assignment loop never hits the double assignment error
and produces the two position range selections. -/
theorem rollAssignAux_eq (f1 f2 p2 : Int) :
    ∀ (l : List Nat) (i : Int),
      rollAssignAux f1 f2 f2 p2 i l =
        .ok (rangeSel f1 f2 i l, rangeSel f2 p2 i l) := by
  intro l
  induction l with
  | nil => intro i; rfl
  | cons e rest ih =>
    intro i
    unfold rollAssignAux rangeSel
    have hcontr :
        ((decide (i ≥ f1) && decide (i < f2)) &&
          (decide (i ≥ f2) && decide (i < p2))) = false := by
      by_cases h2 : i < f2
      · have : ¬ i ≥ f2 := by omega
        simp [this]
      · simp [h2]
    simp only [hcontr, Bool.false_eq_true, if_false, ih (i + 1)]

/-- Membership in a position range selection: exactly the values sitting at
a list position j whose absolute offset i + j lies in [a, b). -/
theorem mem_rangeSel (a b : Int) :
    ∀ (l : List Nat) (i : Int) (x : Nat),
      x ∈ rangeSel a b i l ↔
        ∃ j : Nat, j < l.length ∧ a ≤ i + (j : Int) ∧ i + (j : Int) < b ∧
          l.getD j 0 = x := by
  intro l
  induction l with
  | nil =>
    intro i x
    simp [rangeSel]
  | cons e rest ih =>
    intro i x
    unfold rangeSel
    rw [List.mem_append, ih (i + 1)]
    constructor
    · rintro (hx | ⟨j, hj, hle, hlt, hg⟩)
      · by_cases hc : (decide (i ≥ a) && decide (i < b)) = true
        · rw [if_pos hc] at hx
          simp only [List.mem_singleton] at hx
          refine ⟨0, by simp, ?_, ?_, by simp [hx]⟩
          · have := (Bool.and_eq_true _ _).mp hc
            have h1 := of_decide_eq_true this.1
            push_cast; omega
          · have := (Bool.and_eq_true _ _).mp hc
            have h2 := of_decide_eq_true this.2
            push_cast; omega
        · rw [if_neg hc] at hx
          simp at hx
      · refine ⟨j + 1, by simpa using Nat.succ_lt_succ hj, ?_, ?_, by simpa using hg⟩
        · push_cast; omega
        · push_cast; omega
    · rintro ⟨j, hj, hle, hlt, hg⟩
      match j with
      | 0 =>
        left
        have hc : (decide (i ≥ a) && decide (i < b)) = true := by
          rw [Bool.and_eq_true]
          constructor
          · exact decide_eq_true (by push_cast at hle; omega)
          · exact decide_eq_true (by push_cast at hlt; omega)
        rw [if_pos hc]
        simp only [List.getD] at hg
        simp [← hg]
      | j' + 1 =>
        right
        refine ⟨j', by simpa using Nat.lt_of_succ_lt_succ hj, ?_, ?_, by simpa using hg⟩
        · push_cast at hle ⊢; omega
        · push_cast at hlt ⊢; omega

/-- The pyInt truncation agrees with the floor on nonnegative rationals. -/
theorem pyInt_eq_floor {q : ℚ} (h : 0 ≤ q) : pyInt q = ⌊q⌋ := by
  rw [pyInt, if_pos h, Rat.floor_def, Rat.floor_def']

/-- Every rational era sequence produced by unique_era has no duplicates. -/
theorem unique_era_nodup (d : Data) : d.unique_era.Nodup :=
  (List.perm_insertionSort _ _).nodup_iff.mpr (List.nodup_dedup _)

/-- Membership of a row in an era selection view. -/
theorem mem_era_isin {d : Data} {es : List Nat} {r : Row} :
    r ∈ d.era_isin es ↔ r ∈ d ∧ r.era ∈ es := by
  simp [Data.era_isin]

/-- Two era selections over disjoint era lists of distinct values have no
common era identifier among their rows. -/
theorem eraDisjoint_of_disjoint_lists {d1 d2 : Data} {es1 es2 : List Nat}
    (h : ∀ x ∈ es1, x ∉ es2) :
    eraDisjoint (d1.era_isin es1) (d2.era_isin es2) := by
  intro r1 hr1 r2 hr2 heq
  rcases mem_era_isin.mp hr1 with ⟨-, h1⟩
  rcases mem_era_isin.mp hr2 with ⟨-, h2⟩
  exact h _ h1 (heq ▸ h2)

end Numerox

namespace Numerox

/-! ### Claim theorems -/

/-- Helper: the rollCompute body never returns the internal RuntimeError,
because the predict range starts exactly where the fit range ends. -/
theorem rollCompute_ne_runtimeError (data : Data) (eras : List Nat)
    (count : Nat) (p : RollParams) :
    rollCompute data eras count p ≠ Except.error PyErr.runtimeError := by
  unfold rollCompute rollIndices
  simp only []
  split
  · simp
  · rw [rollAssignAux_eq]
    simp

/-- Claim C7: in RollSplitter.next_split no era position can satisfy the fit
range and the predict range at once, since the predict range begins exactly
at the exclusive upper bound of the fit range, and consequently the internal
double assignment RuntimeError branch is unreachable for every configuration
and iteration. -/
theorem roll_ranges_exclusive_no_runtime_error :
    (∀ (count : Nat) (p : RollParams) (i : Int),
        ¬ (i ≥ (rollIndices count p).1 ∧ i < (rollIndices count p).2.1 ∧
           i ≥ (rollIndices count p).2.2.1 ∧ i < (rollIndices count p).2.2.2)) ∧
    (∀ (count : Nat) (st : RollState),
        (RollSplitter.next_split count st).1 ≠ Except.error PyErr.runtimeError) := by
  constructor
  · intro count p i h
    simp only [rollIndices] at h
    obtain ⟨-, h2, h3, -⟩ := h
    exact absurd (lt_of_lt_of_le h2 h3) (lt_irrefl i)
  · intro count st
    unfold RollSplitter.next_split
    by_cases h : count = 0
    · simpa [h] using rollCompute_ne_runtimeError _ _ _ _
    · rw [if_neg h]
      cases heq : st.eras with
      | none => simp
      | some eras => simpa using rollCompute_ne_runtimeError _ _ _ _

/-- Witness for C7 at a concrete configuration and state. -/
theorem roll_ranges_exclusive_no_runtime_error_witness :
    (RollSplitter.next_split 0
        ⟨⟨[⟨0, Region.train, 0⟩], 1, 1, 1, true⟩, none⟩).1 ≠
      Except.error PyErr.runtimeError :=
  roll_ranges_exclusive_no_runtime_error.2 0 _

/-- Claim C9: every single split strategy (Tournament, Validation, Cheat,
SplitSplitter) has max_count zero, so the first call after construction or
reset returns one partition pair and every later call without a reset
signals StopIteration, leaving the state unchanged. -/
theorem single_split_strategies_one_pair :
    (∀ d : Data,
        TournamentSplitter.next (TournamentSplitter.init d) =
          (.ok (d.getRegion Region.train, d.getRegion Region.tournament),
           ⟨1, d⟩)) ∧
    (∀ s : SplitterSt Data, 1 ≤ s.count →
        TournamentSplitter.next s = (.error .stopIteration, s)) ∧
    (∀ d : Data,
        ValidationSplitter.next (ValidationSplitter.init d) =
          (.ok (d.getRegion Region.train, d.getRegion Region.validation),
           ⟨1, d⟩)) ∧
    (∀ s : SplitterSt Data, 1 ≤ s.count →
        ValidationSplitter.next s = (.error .stopIteration, s)) ∧
    (∀ d : Data,
        CheatSplitter.next (CheatSplitter.init d) =
          (.ok (d.region_isin [Region.train, Region.validation],
                d.getRegion Region.validation), ⟨1, d⟩)) ∧
    (∀ s : SplitterSt Data, 1 ≤ s.count →
        CheatSplitter.next s = (.error .stopIteration, s)) ∧
    (∀ (shuffle : Nat → List Nat → List Nat) (p : SplitParams),
        SplitSplitter.next shuffle (SplitSplitter.init p) =
          ((SplitSplitter.next_split shuffle p).1, ⟨1, p⟩)) ∧
    (∀ (shuffle : Nat → List Nat → List Nat) (p : SplitParams), ∃ pr,
        (SplitSplitter.next_split shuffle p).1 = .ok pr) ∧
    (∀ (shuffle : Nat → List Nat → List Nat) (s : SplitterSt SplitParams),
        1 ≤ s.count → SplitSplitter.next shuffle s = (.error .stopIteration, s)) := by
  have hstop : ∀ (c : Nat), 1 ≤ c → exceedsMax (some 0) c = true := by
    intro c hc
    simp only [exceedsMax, decide_eq_true_eq]
    exact_mod_cast hc
  refine ⟨fun d => rfl, ?_, fun d => rfl, ?_, fun d => rfl, ?_,
      fun shuffle p => rfl, fun shuffle p => ⟨_, rfl⟩, ?_⟩
  · intro s hs
    simp [TournamentSplitter.next, Splitter.next, hstop s.count hs]
  · intro s hs
    simp [ValidationSplitter.next, Splitter.next, hstop s.count hs]
  · intro s hs
    simp [CheatSplitter.next, Splitter.next, hstop s.count hs]
  · intro shuffle s hs
    simp [SplitSplitter.next, Splitter.next, hstop s.count hs]

end Numerox

namespace Numerox

/-- Witness for C9: a concrete first call and a concrete exhausted call. -/
theorem single_split_strategies_one_pair_witness :
    (1 : Nat) ≤ 1 ∧
    TournamentSplitter.next ⟨1, [⟨1, Region.train, 0⟩]⟩ =
      (.error .stopIteration, ⟨1, [⟨1, Region.train, 0⟩]⟩) :=
  ⟨by decide, single_split_strategies_one_pair.2.1 ⟨1, [⟨1, Region.train, 0⟩]⟩ (by decide)⟩

/-- Claim C1 (code evidence of the divergence): a CVSplitter constructed
with train_only set filters the data to the train region only inside the
first call branch, so from the second iteration on the era selection runs
over the raw dataset and rows outside the train region leak into the
partitions whenever they share an era identifier with a train era.  Here
the second call puts the validation row with era 1 into the fit partition,
while the first call returned train rows only. -/
theorem cv_train_only_second_iteration_leaks :
    runOutputs (CVSplitter.next (fun _ n => List.range n))
        (CVSplitter.init ⟨[⟨1, Region.train, 0⟩, ⟨2, Region.train, 1⟩,
          ⟨1, Region.validation, 2⟩], 2, 0, true⟩) 0 =
      .ok ([⟨2, Region.train, 1⟩], [⟨1, Region.train, 0⟩]) ∧
    runOutputs (CVSplitter.next (fun _ n => List.range n))
        (CVSplitter.init ⟨[⟨1, Region.train, 0⟩, ⟨2, Region.train, 1⟩,
          ⟨1, Region.validation, 2⟩], 2, 0, true⟩) 1 =
      .ok ([⟨1, Region.train, 0⟩, ⟨1, Region.validation, 2⟩],
           [⟨2, Region.train, 1⟩]) ∧
    (⟨1, Region.validation, 2⟩ : Row).region ≠ Region.train := by
  refine ⟨by decide, by decide, by decide⟩

/-- Claim C2 counterexample: a TournamentSplitter over a dataset in which
era 1 occurs both in the train region and in the tournament region returns
a partition pair whose fit and predict parts share era 1. -/
theorem tournament_shared_era_counterexample :
    TournamentSplitter.next (TournamentSplitter.init
        [⟨1, Region.train, 0⟩, ⟨1, Region.tournament, 1⟩]) =
      (.ok ([⟨1, Region.train, 0⟩], [⟨1, Region.tournament, 1⟩]),
       ⟨1, [⟨1, Region.train, 0⟩, ⟨1, Region.tournament, 1⟩]⟩) ∧
    ¬ eraDisjoint [⟨1, Region.train, 0⟩] [⟨1, Region.tournament, 1⟩] := by
  refine ⟨by decide, by decide⟩

/-- Claim C10 counterexample: a RollSplitter whose very first call already
exceeds the era range signals StopIteration, yet that call writes the era
cache (the source assigns the eras attribute before its bounds check), so
the cached state is not left unchanged by the exhausting call. -/
theorem roll_first_call_exhaustion_mutates_cache :
    (RollSplitter.next (RollSplitter.init
        ⟨[⟨0, Region.train, 0⟩], 1, 1, 1, true⟩)).1 = .error .stopIteration ∧
    (RollSplitter.init ⟨[⟨0, Region.train, 0⟩], 1, 1, 1, true⟩).inner.eras = none ∧
    (RollSplitter.next (RollSplitter.init
        ⟨[⟨0, Region.train, 0⟩], 1, 1, 1, true⟩)).2.inner.eras = some [0] := by
  refine ⟨by decide, by decide, by decide⟩

/-- Claim C5 counterexample: invalid parameters pass construction.  A
SplitSplitter with fit_fraction 2 is accepted and its single call succeeds
with an empty predict partition (the oversized slice index is silently
clamped); a CVSplitter with kfold 1 is constructed normally (count 0, empty
caches) and the ValueError surfaces only at the first call; a RollSplitter
with step 0 is accepted and repeats the same pair forever. -/
theorem invalid_params_not_rejected_at_construction :
    SplitSplitter.next (fun _ l => l)
        (SplitSplitter.init ⟨[⟨0, Region.train, 0⟩, ⟨1, Region.train, 1⟩],
          2, 0, true⟩) =
      (.ok ([⟨0, Region.train, 0⟩, ⟨1, Region.train, 1⟩], []),
       ⟨1, ⟨[⟨0, Region.train, 0⟩, ⟨1, Region.train, 1⟩], 2, 0, true⟩⟩) ∧
    CVSplitter.init ⟨[⟨0, Region.train, 0⟩], 1, 0, true⟩ =
      ⟨0, ⟨⟨[⟨0, Region.train, 0⟩], 1, 0, true⟩, none, none⟩⟩ ∧
    runOutputs (CVSplitter.next (fun _ n => List.range n))
        (CVSplitter.init ⟨[⟨0, Region.train, 0⟩], 1, 0, true⟩) 0 =
      .error .valueError ∧
    RollSplitter.init ⟨[⟨0, Region.train, 0⟩, ⟨1, Region.train, 1⟩,
        ⟨2, Region.train, 2⟩], 2, 1, 0, true⟩ =
      ⟨0, ⟨⟨[⟨0, Region.train, 0⟩, ⟨1, Region.train, 1⟩,
        ⟨2, Region.train, 2⟩], 2, 1, 0, true⟩, none⟩⟩ ∧
    runOutputs RollSplitter.next (RollSplitter.init
        ⟨[⟨0, Region.train, 0⟩, ⟨1, Region.train, 1⟩,
          ⟨2, Region.train, 2⟩], 2, 1, 0, true⟩) 0 =
      .ok ([⟨0, Region.train, 0⟩, ⟨1, Region.train, 1⟩],
           [⟨2, Region.train, 2⟩]) ∧
    runOutputs RollSplitter.next (RollSplitter.init
        ⟨[⟨0, Region.train, 0⟩, ⟨1, Region.train, 1⟩,
          ⟨2, Region.train, 2⟩], 2, 1, 0, true⟩) 1 =
      .ok ([⟨0, Region.train, 0⟩, ⟨1, Region.train, 1⟩],
           [⟨2, Region.train, 2⟩]) := by
  have heras : SplitSplitter.eraSplit (fun _ l => l)
      ⟨[⟨0, Region.train, 0⟩, ⟨1, Region.train, 1⟩], 2, 0, true⟩ = ([0, 1], []) := by
    unfold SplitSplitter.eraSplit
    norm_num [show Data.unique_era (Data.getRegion
        [⟨0, Region.train, 0⟩, ⟨1, Region.train, 1⟩] Region.train) = [0, 1] from by decide,
      pyInt_eq_floor, pySliceIdx]
  refine ⟨?_, by decide, by decide, by decide, by decide, by decide⟩
  simp [SplitSplitter.next, Splitter.next, exceedsMax, SplitSplitter.next_split,
    SplitSplitter.init, heras, Data.era_isin]
  decide

end Numerox

namespace Numerox

/-- Unfolding of iterSt one call at the back. -/
theorem iterSt_succ {α : Type} (stp : α → Except PyErr (Data × Data) × α)
    (s : α) : ∀ n, iterSt stp s (n + 1) = (stp (iterSt stp s n)).2 := by
  intro n
  induction n generalizing s with
  | zero => rfl
  | succ n ih => exact ih (stp s).2

/-- The n-th output is the output of one call on the n-th state. -/
theorem runOutputs_eq {α : Type} (stp : α → Except PyErr (Data × Data) × α)
    (s : α) : ∀ n, runOutputs stp s n = (stp (iterSt stp s n)).1 := by
  intro n
  induction n generalizing s with
  | zero => rfl
  | succ n ih => exact ih (stp s).2

/-- Full behavioral equation of the shared next method. -/
theorem splitter_next_eq {σ : Type} (mc : Option Int)
    (ns : Nat → σ → Except PyErr (Data × Data) × σ) (s : SplitterSt σ) :
    Splitter.next mc ns s =
      if exceedsMax mc s.count then (.error .stopIteration, s)
      else ((ns s.count s.inner).1,
            ⟨if (ns s.count s.inner).1.isOk then s.count + 1 else s.count,
             (ns s.count s.inner).2⟩) := by
  unfold Splitter.next
  split
  · rfl
  · rcases h : ns s.count s.inner with ⟨res, i⟩
    cases res <;> simp [h, Except.isOk, Except.toBool]

/-- The first-call branch of CVSplitter.next_split in terms of the
canonical cache values. -/
theorem cv_next_split_zero (idxPerm : Nat → Nat → List Nat) (st : CVState) :
    CVSplitter.next_split idxPerm 0 st =
      (if st.p.kfold < 2 then
        (.error .valueError, { st with eras := some (cvEras st.p) })
      else
        let data := if st.p.train_only then st.p.data.getRegion Region.train
                    else st.p.data
        let res := cvAdvanceGen data (cvEras st.p) (cvGen0 idxPerm st.p)
        (res.1, { st with eras := some (cvEras st.p), cv := some res.2 })) := rfl

/-- Every ok item the KFold generator model yields is a well formed fold. -/
theorem kfoldGen_goodAll (k : Int) (perm : List Nat) (n : Nat) :
    goodAll n (kfoldGen k perm n) := by
  intro x hx f hf
  unfold kfoldGen at hx
  split at hx
  · simp only [List.mem_singleton] at hx
    rw [hx] at hf
    exact absurd hf (by simp)
  · rcases List.mem_map.mp hx with ⟨chunk, -, rfl⟩
    injection hf with hf
    subst hf
    refine ⟨?_, ?_, ?_⟩
    · intro i hi
      exact List.mem_range.mp (List.mem_filter.mp hi).1
    · intro j hj
      exact List.mem_range.mp (List.mem_filter.mp hj).1
    · intro i hi hi2
      have h1 := (List.mem_filter.mp hi).2
      have h2 := (List.mem_filter.mp hi2).2
      simp only [decide_eq_true_eq] at h1 h2
      exact h1 h2

/-- Resolving a well formed fold through a duplicate free era sequence
yields era disjoint partitions. -/
theorem cvSelect_disjoint (data : Data) (e : List Nat)
    (f : List Nat × List Nat) (he : e.Nodup) (hf : GoodFold e.length f) :
    eraDisjoint (cvSelect data e f).1 (cvSelect data e f).2 := by
  apply eraDisjoint_of_disjoint_lists
  intro x hx1 hx2
  rcases List.mem_map.mp hx1 with ⟨i, hi, rfl⟩
  rcases List.mem_map.mp hx2 with ⟨j, hj, hij⟩
  have hiN := hf.1 i hi
  have hjN := hf.2.1 j hj
  rw [List.getD_eq_getElem _ _ hjN, List.getD_eq_getElem _ _ hiN] at hij
  have hji := (he.getElem_inj_iff).mp hij
  exact hf.2.2 i hi (hji ▸ hj)

/-- CVSplitter preserves its cache invariant across one call, and every pair
it returns is era disjoint. -/
theorem cv_next_preserves (idxPerm : Nat → Nat → List Nat)
    (s : SplitterSt CVState) (h : CVInv s.inner) :
    CVInv ((CVSplitter.next idxPerm s).2).inner ∧
      ∀ pr, (CVSplitter.next idxPerm s).1 = .ok pr →
        eraDisjoint pr.1 pr.2 := by
  have hmain : CVInv (CVSplitter.next_split idxPerm s.count s.inner).2 ∧
      ∀ pr, (CVSplitter.next_split idxPerm s.count s.inner).1 = .ok pr →
        eraDisjoint pr.1 pr.2 := by
    by_cases hc : s.count = 0
    · rw [hc, cv_next_split_zero]
      by_cases hk : s.inner.p.kfold < 2
      · rw [if_pos hk]
        refine ⟨?_, fun pr hpr => by simp at hpr⟩
        rcases h with hnone | ⟨g, he, hcv, hgood⟩
        · left; exact hnone
        · right; exact ⟨g, rfl, hcv, hgood⟩
      · rw [if_neg hk]
        have hgood0 : goodAll (cvEras s.inner.p).length (cvGen0 idxPerm s.inner.p) :=
          kfoldGen_goodAll _ _ _
        rcases hgen : cvGen0 idxPerm s.inner.p with - | ⟨x, rest⟩
        · simp only [hgen, cvAdvanceGen]
          exact ⟨Or.inr ⟨[], rfl, rfl, by intro y hy; simp at hy⟩,
            fun pr hpr => by simp at hpr⟩
        · cases x with
          | error e =>
            simp only [hgen, cvAdvanceGen]
            refine ⟨Or.inr ⟨rest, rfl, rfl, ?_⟩, fun pr hpr => by simp at hpr⟩
            intro y hy f hf
            exact hgood0 y (hgen ▸ List.mem_cons_of_mem _ hy) f hf
          | ok fold =>
            simp only [hgen, cvAdvanceGen]
            constructor
            · refine Or.inr ⟨rest, rfl, rfl, ?_⟩
              intro y hy f hf
              exact hgood0 y (hgen ▸ List.mem_cons_of_mem _ hy) f hf
            · intro pr hpr
              simp only [Except.ok.injEq] at hpr
              subst hpr
              exact cvSelect_disjoint _ _ _ (unique_era_nodup _)
                (hgood0 _ (hgen ▸ List.mem_cons_self _ _) fold rfl)
    · unfold CVSplitter.next_split
      rw [if_neg hc]
      rcases h1 : s.inner.eras with - | e
      · rcases h2 : s.inner.cv with - | g <;>
          exact ⟨h, fun pr hpr => by simp at hpr⟩
      · rcases h2 : s.inner.cv with - | g
        · exact ⟨h, fun pr hpr => by simp at hpr⟩
        · rcases h with hnone | ⟨g', he', hcv', hgood⟩
          · rw [h2] at hnone; exact Option.noConfusion hnone
          · rw [h1] at he'
            injection he' with he'
            rw [h2] at hcv'
            injection hcv' with hcv'
            subst hcv'
            subst he'
            rcases g with - | ⟨x, rest⟩
            · simp only [cvAdvanceGen]
              exact ⟨Or.inr ⟨[], rfl, rfl, by intro y hy; simp at hy⟩,
                fun pr hpr => by simp at hpr⟩
            · cases x with
              | error e2 =>
                simp only [cvAdvanceGen]
                refine ⟨Or.inr ⟨rest, rfl, rfl, ?_⟩,
                  fun pr hpr => by simp at hpr⟩
                intro y hy f hf
                exact hgood y (List.mem_cons_of_mem _ hy) f hf
              | ok fold =>
                simp only [cvAdvanceGen]
                constructor
                · refine Or.inr ⟨rest, rfl, rfl, ?_⟩
                  intro y hy f hf
                  exact hgood y (List.mem_cons_of_mem _ hy) f hf
                · intro pr hpr
                  simp only [Except.ok.injEq] at hpr
                  subst hpr
                  exact cvSelect_disjoint _ _ _ (unique_era_nodup _)
                    (hgood _ (List.mem_cons_self _ _) fold rfl)
  rw [CVSplitter.next, splitter_next_eq]
  split
  · exact ⟨h, fun pr hpr => by simp at hpr⟩
  · exact hmain

end Numerox

namespace Numerox

/-- Any ok pair rollCompute returns over a duplicate free era sequence is
era disjoint, since the two position ranges are disjoint. -/
theorem rollCompute_disjoint (data : Data) (eras : List Nat) (c : Nat)
    (p : RollParams) (he : eras.Nodup) :
    ∀ pr, rollCompute data eras c p = .ok pr → eraDisjoint pr.1 pr.2 := by
  intro pr hpr
  unfold rollCompute rollIndices at hpr
  simp only [] at hpr
  split at hpr
  · exact absurd hpr (by simp)
  · rw [rollAssignAux_eq] at hpr
    simp only [Except.ok.injEq] at hpr
    subst hpr
    apply eraDisjoint_of_disjoint_lists
    intro x hx1 hx2
    rcases (mem_rangeSel _ _ _ _ _).mp hx1 with ⟨j1, hj1l, hj1a, hj1b, hj1g⟩
    rcases (mem_rangeSel _ _ _ _ _).mp hx2 with ⟨j2, hj2l, hj2a, hj2b, hj2g⟩
    rw [List.getD_eq_getElem _ _ hj1l] at hj1g
    rw [List.getD_eq_getElem _ _ hj2l] at hj2g
    have hj : j1 = j2 := he.getElem_inj_iff.mp (hj1g.trans hj2g.symm)
    subst hj
    exact absurd (lt_of_lt_of_le hj1b hj2a) (lt_irrefl _)

/-- RollSplitter preserves its cache invariant across one call, and every
pair it returns is era disjoint. -/
theorem roll_next_preserves (s : SplitterSt RollState) (h : RollInv s.inner) :
    RollInv ((RollSplitter.next s).2).inner ∧
      ∀ pr, (RollSplitter.next s).1 = .ok pr → eraDisjoint pr.1 pr.2 := by
  have hmain : RollInv (RollSplitter.next_split s.count s.inner).2 ∧
      ∀ pr, (RollSplitter.next_split s.count s.inner).1 = .ok pr →
        eraDisjoint pr.1 pr.2 := by
    unfold RollSplitter.next_split
    by_cases hc : s.count = 0
    · rw [if_pos hc]
      refine ⟨Or.inr rfl, ?_⟩
      exact rollCompute_disjoint _ _ _ _ (unique_era_nodup _)
    · rw [if_neg hc]
      rcases h1 : s.inner.eras with - | e
      · exact ⟨h, fun pr hpr => by simp at hpr⟩
      · rcases h with hnone | hsome
        · rw [h1] at hnone; exact Option.noConfusion hnone
        · rw [h1] at hsome
          injection hsome with hsome
          subst hsome
          exact ⟨Or.inr h1, rollCompute_disjoint _ _ _ _ (unique_era_nodup _)⟩
  rw [RollSplitter.next, splitter_next_eq]
  split
  · exact ⟨h, fun pr hpr => by simp at hpr⟩
  · exact hmain

end Numerox

namespace Numerox

/-- Claim C2 (amended): SplitSplitter (when the seeded shuffle permutes the
era sequence), CVSplitter and RollSplitter never put one era identifier
into both partitions of an iteration; TournamentSplitter and
ValidationSplitter satisfy this only when the dataset shares no era
identifier between the train region and the respective predict region. -/
theorem era_respecting_strategies_disjoint :
    (∀ d : Data,
        (∀ r1 ∈ d, ∀ r2 ∈ d, r1.region = Region.train →
          r2.region = Region.tournament → r1.era ≠ r2.era) →
        ∀ pr, (TournamentSplitter.next_split d).1 = .ok pr →
          eraDisjoint pr.1 pr.2) ∧
    (∀ d : Data,
        (∀ r1 ∈ d, ∀ r2 ∈ d, r1.region = Region.train →
          r2.region = Region.validation → r1.era ≠ r2.era) →
        ∀ pr, (ValidationSplitter.next_split d).1 = .ok pr →
          eraDisjoint pr.1 pr.2) ∧
    (∀ (shuffle : Nat → List Nat → List Nat) (p : SplitParams),
        (∀ sd l, (shuffle sd l).Perm l) →
        ∀ pr, (SplitSplitter.next_split shuffle p).1 = .ok pr →
          eraDisjoint pr.1 pr.2) ∧
    (∀ (idxPerm : Nat → Nat → List Nat) (p : CVParams) (i : Nat)
        (pr : Data × Data),
        runOutputs (CVSplitter.next idxPerm) (CVSplitter.init p) i = .ok pr →
        eraDisjoint pr.1 pr.2) ∧
    (∀ (p : RollParams) (i : Nat) (pr : Data × Data),
        runOutputs RollSplitter.next (RollSplitter.init p) i = .ok pr →
        eraDisjoint pr.1 pr.2) := by
  refine ⟨?_, ?_, ?_, ?_, ?_⟩
  · intro d hd pr hpr
    simp only [TournamentSplitter.next_split, Except.ok.injEq] at hpr
    subst hpr
    intro r1 hr1 r2 hr2
    simp only [Data.getRegion, List.mem_filter, decide_eq_true_eq] at hr1 hr2
    exact hd r1 hr1.1 r2 hr2.1 hr1.2 hr2.2
  · intro d hd pr hpr
    simp only [ValidationSplitter.next_split, Except.ok.injEq] at hpr
    subst hpr
    intro r1 hr1 r2 hr2
    simp only [Data.getRegion, List.mem_filter, decide_eq_true_eq] at hr1 hr2
    exact hd r1 hr1.1 r2 hr2.1 hr1.2 hr2.2
  · intro shuffle p hsh pr hpr
    simp only [SplitSplitter.next_split, Except.ok.injEq] at hpr
    subst hpr
    apply eraDisjoint_of_disjoint_lists
    intro x hx1 hx2
    simp only [SplitSplitter.eraSplit] at hx1 hx2
    have hnd : (shuffle p.seed (Data.unique_era
        (if p.train_only then p.data.getRegion Region.train else p.data))).Nodup :=
      (hsh _ _).nodup_iff.mpr (unique_era_nodup _)
    exact List.disjoint_take_drop hnd le_rfl hx1 hx2
  · intro idxPerm p i pr hok
    have hinv : ∀ n,
        CVInv ((iterSt (CVSplitter.next idxPerm) (CVSplitter.init p) n).inner) := by
      intro n
      induction n with
      | zero => exact Or.inl rfl
      | succ n ih =>
        rw [iterSt_succ]
        exact (cv_next_preserves idxPerm _ ih).1
    rw [runOutputs_eq] at hok
    exact (cv_next_preserves idxPerm _ (hinv i)).2 pr hok
  · intro p i pr hok
    have hinv : ∀ n,
        RollInv ((iterSt RollSplitter.next (RollSplitter.init p) n).inner) := by
      intro n
      induction n with
      | zero => exact Or.inl rfl
      | succ n ih =>
        rw [iterSt_succ]
        exact (roll_next_preserves _ ih).1
    rw [runOutputs_eq] at hok
    exact (roll_next_preserves _ (hinv i)).2 pr hok

/-- Witness for C2 at concrete datasets, discharging every hypothesis. -/
theorem era_respecting_strategies_disjoint_witness :
    eraDisjoint [⟨1, Region.train, 0⟩] [] ∧
    eraDisjoint [⟨2, Region.train, 0⟩] [] ∧
    eraDisjoint
      ((Data.getRegion [⟨3, Region.train, 0⟩] Region.train).era_isin
        (SplitSplitter.eraSplit (fun _ l => l)
          ⟨[⟨3, Region.train, 0⟩], 1/2, 0, true⟩).1)
      ((Data.getRegion [⟨3, Region.train, 0⟩] Region.train).era_isin
        (SplitSplitter.eraSplit (fun _ l => l)
          ⟨[⟨3, Region.train, 0⟩], 1/2, 0, true⟩).2) ∧
    eraDisjoint [⟨2, Region.train, 1⟩] [⟨1, Region.train, 0⟩] ∧
    eraDisjoint [⟨4, Region.train, 0⟩, ⟨5, Region.train, 1⟩]
      [⟨6, Region.train, 2⟩] :=
  ⟨era_respecting_strategies_disjoint.1 [⟨1, Region.train, 0⟩] (by decide) _ rfl,
   era_respecting_strategies_disjoint.2.1 [⟨2, Region.train, 0⟩] (by decide) _ rfl,
   era_respecting_strategies_disjoint.2.2.1 (fun _ l => l)
     ⟨[⟨3, Region.train, 0⟩], 1/2, 0, true⟩ (fun _ _ => List.Perm.refl _) _ rfl,
   era_respecting_strategies_disjoint.2.2.2.1 (fun _ n => List.range n)
     ⟨[⟨1, Region.train, 0⟩, ⟨2, Region.train, 1⟩], 2, 0, true⟩ 0
     ([⟨2, Region.train, 1⟩], [⟨1, Region.train, 0⟩]) (by decide),
   era_respecting_strategies_disjoint.2.2.2.2
     ⟨[⟨4, Region.train, 0⟩, ⟨5, Region.train, 1⟩, ⟨6, Region.train, 2⟩],
       2, 1, 1, true⟩ 0
     ([⟨4, Region.train, 0⟩, ⟨5, Region.train, 1⟩], [⟨6, Region.train, 2⟩])
     (by decide)⟩

end Numerox

namespace Numerox

/-- Cutting a list into chunks yields one chunk per requested size. -/
theorem chunksBySizes_length (ss : List Nat) :
    ∀ l, (chunksBySizes ss l).length = ss.length := by
  induction ss with
  | nil => intro l; rfl
  | cons s ss ih => intro l; simp [chunksBySizes, ih]

/-- With at most as many splits as samples the KFold generator model holds
exactly kfold items. -/
theorem kfoldGen_length (k : Int) (perm : List Nat) (n : Nat)
    (h : k ≤ (n : Int)) : (kfoldGen k perm n).length = k.toNat := by
  unfold kfoldGen
  rw [if_neg (by omega)]
  simp [chunksBySizes_length, foldSizes]

/-- With at most as many splits as samples every generator item is ok. -/
theorem kfoldGen_all_ok (k : Int) (perm : List Nat) (n : Nat)
    (h : k ≤ (n : Int)) :
    ∀ x ∈ kfoldGen k perm n, ∃ f, x = .ok f := by
  intro x hx
  unfold kfoldGen at hx
  rw [if_neg (by omega)] at hx
  rcases List.mem_map.mp hx with ⟨c, -, rfl⟩
  exact ⟨_, rfl⟩

/-- Helper for the well populated regime of a CVSplitter run: with kfold at
least two and at least kfold distinct eras, each of the first kfold calls
returns a pair, and the call after that signals StopIteration because the
guard still passes while the fold generator is exhausted. -/
theorem cv_kfold_run_length (idxPerm : Nat → Nat → List Nat) (p : CVParams)
    (hk2 : 2 ≤ p.kfold) (hkn : p.kfold ≤ ((cvEras p).length : Int)) :
    (∀ i : Nat, i < p.kfold.toNat → ∃ pr,
        runOutputs (CVSplitter.next idxPerm) (CVSplitter.init p) i = .ok pr) ∧
    runOutputs (CVSplitter.next idxPerm) (CVSplitter.init p) p.kfold.toNat =
      .error .stopIteration := by
  have hk2' : ¬ p.kfold < 2 := by omega
  have hlen : (cvGen0 idxPerm p).length = p.kfold.toNat :=
    kfoldGen_length _ _ _ hkn
  have hok : ∀ x ∈ cvGen0 idxPerm p, ∃ f, x = .ok f :=
    kfoldGen_all_ok _ _ _ hkn
  have hguard : ∀ c : Nat, (c : Int) ≤ p.kfold →
      exceedsMax (some p.kfold) c = false := by
    intro c hc
    simp only [exceedsMax, gt_iff_lt, decide_eq_false_iff_not, not_lt]
    exact hc
  obtain ⟨f0, rest0, hgen⟩ :
      ∃ f rest, cvGen0 idxPerm p = .ok f :: rest := by
    rcases hg : cvGen0 idxPerm p with - | ⟨x, rest⟩
    · rw [hg] at hlen; simp at hlen; omega
    · rcases hok x (hg ▸ List.mem_cons_self _ _) with ⟨f, rfl⟩
      exact ⟨f, rest, rfl⟩
  have h0 : CVSplitter.next idxPerm (CVSplitter.init p) =
      (.ok (cvSelect (if p.train_only then p.data.getRegion Region.train
          else p.data) (cvEras p) f0),
       ⟨1, ⟨p, some (cvEras p), some rest0⟩⟩) := by
    have hns0 : CVSplitter.next_split idxPerm 0 (⟨p, none, none⟩ : CVState) =
        (.ok (cvSelect (if p.train_only then p.data.getRegion Region.train
            else p.data) (cvEras p) f0),
         ⟨p, some (cvEras p), some rest0⟩) := by
      rw [cv_next_split_zero]
      dsimp only
      rw [if_neg hk2', hgen]
      simp [cvAdvanceGen]
    rw [CVSplitter.next, splitter_next_eq]
    dsimp only [CVSplitter.init]
    rw [hguard 0 (by omega), hns0]
    simp [Except.isOk, Except.toBool]
  have hstep : ∀ i : Nat, 1 ≤ i → i < p.kfold.toNat → ∃ pr,
      CVSplitter.next idxPerm
        ⟨i, ⟨p, some (cvEras p), some ((cvGen0 idxPerm p).drop i)⟩⟩ =
      (.ok pr,
       ⟨i + 1, ⟨p, some (cvEras p), some ((cvGen0 idxPerm p).drop (i + 1))⟩⟩) := by
    intro i h1 hi
    have hilen : i < (cvGen0 idxPerm p).length := by omega
    have hdrop : (cvGen0 idxPerm p).drop i =
        (cvGen0 idxPerm p)[i] :: (cvGen0 idxPerm p).drop (i + 1) :=
      List.drop_eq_getElem_cons hilen
    rcases hok _ ((cvGen0 idxPerm p).getElem_mem hilen) with ⟨f, hf⟩
    refine ⟨cvSelect p.data (cvEras p) f, ?_⟩
    have hns : CVSplitter.next_split idxPerm i
        (⟨p, some (cvEras p), some ((cvGen0 idxPerm p).drop i)⟩ : CVState) =
        (.ok (cvSelect p.data (cvEras p) f),
         ⟨p, some (cvEras p), some ((cvGen0 idxPerm p).drop (i + 1))⟩) := by
      unfold CVSplitter.next_split
      rw [if_neg (by omega : ¬ i = 0)]
      dsimp only
      rw [hdrop, hf]
      simp [cvAdvanceGen]
    rw [CVSplitter.next, splitter_next_eq]
    dsimp only
    rw [hguard i (by omega), hns]
    simp [Except.isOk, Except.toBool]
  have hdropK : (cvGen0 idxPerm p).drop p.kfold.toNat = [] := by
    rw [← hlen]; exact List.drop_length _
  have hK : CVSplitter.next idxPerm
      ⟨p.kfold.toNat, ⟨p, some (cvEras p),
        some ((cvGen0 idxPerm p).drop p.kfold.toNat)⟩⟩ =
      (.error .stopIteration,
       ⟨p.kfold.toNat, ⟨p, some (cvEras p),
        some ((cvGen0 idxPerm p).drop p.kfold.toNat)⟩⟩) := by
    rw [hdropK]
    have hns : CVSplitter.next_split idxPerm p.kfold.toNat
        (⟨p, some (cvEras p), some []⟩ : CVState) =
        (.error .stopIteration, ⟨p, some (cvEras p), some []⟩) := by
      unfold CVSplitter.next_split
      rw [if_neg (by omega : ¬ p.kfold.toNat = 0)]
      dsimp only
      simp [cvAdvanceGen]
    rw [CVSplitter.next, splitter_next_eq]
    dsimp only
    rw [hguard p.kfold.toNat (by omega), hns]
    simp [Except.isOk, Except.toBool]
  have hiter : ∀ i : Nat, 1 ≤ i → i ≤ p.kfold.toNat →
      iterSt (CVSplitter.next idxPerm) (CVSplitter.init p) i =
        ⟨i, ⟨p, some (cvEras p), some ((cvGen0 idxPerm p).drop i)⟩⟩ := by
    intro i
    induction i with
    | zero => intro h1 _; omega
    | succ i ih =>
      intro _ hle
      rw [iterSt_succ]
      by_cases hi0 : i = 0
      · subst hi0
        simp [iterSt, h0, hgen]
      · rw [ih (by omega) (by omega)]
        rcases hstep i (by omega) (by omega) with ⟨pr, hs⟩
        rw [hs]
  constructor
  · intro i hi
    by_cases hi0 : i = 0
    · subst hi0
      exact ⟨cvSelect (if p.train_only then p.data.getRegion Region.train
          else p.data) (cvEras p) f0,
        by rw [runOutputs_eq]; simp only [iterSt, h0]⟩
    · rcases hstep i (by omega) hi with ⟨pr, hs⟩
      refine ⟨pr, ?_⟩
      rw [runOutputs_eq, hiter i (by omega) (by omega), hs]
  · rw [runOutputs_eq, hiter p.kfold.toNat (by omega) le_rfl, hK]

end Numerox

namespace Numerox

/-- Exhaustion of a splitter whose next_split is total comes only from the
guard, so it repeats and leaves the state unchanged. -/
theorem stop_stable_of_total {σ : Type} (mc : Option Int)
    (ns : Nat → σ → Except PyErr (Data × Data) × σ)
    (hns : ∀ c st, ∃ pr, (ns c st).1 = Except.ok pr)
    (s s' : SplitterSt σ) :
    Splitter.next mc ns s = (.error .stopIteration, s') →
    s'.count = s.count ∧ (Splitter.next mc ns s').1 = .error .stopIteration := by
  rw [splitter_next_eq]
  intro h
  split at h
  case isTrue hg =>
    rw [Prod.mk.injEq] at h
    obtain ⟨-, rfl⟩ := h
    exact ⟨rfl, by rw [splitter_next_eq, if_pos hg]⟩
  case isFalse hg =>
    rw [Prod.mk.injEq] at h
    rcases hns s.count s.inner with ⟨pr, hpr⟩
    rw [hpr] at h
    exact absurd h.1 (by simp)

/-- The parameter bag is never rewritten by CVSplitter.next_split. -/
theorem cv_next_split_p (idxPerm : Nat → Nat → List Nat) (c : Nat)
    (st : CVState) : ((CVSplitter.next_split idxPerm c st).2).p = st.p := by
  by_cases hc : c = 0
  · subst hc
    rw [cv_next_split_zero]
    split
    · rfl
    · rfl
  · unfold CVSplitter.next_split
    rw [if_neg hc]
    rcases h1 : st.eras with - | e <;> rcases h2 : st.cv with - | g <;> rfl

/-- The KFold generator model never holds a StopIteration item. -/
theorem kfoldGen_no_stop (k : Int) (perm : List Nat) (n : Nat) :
    noStopItems (kfoldGen k perm n) := by
  intro x hx
  unfold kfoldGen at hx
  split at hx
  · simp only [List.mem_singleton] at hx
    simp [hx]
  · rcases List.mem_map.mp hx with ⟨c, -, rfl⟩
    simp

/-- A StopIteration raised inside CVSplitter.next_split reproduces itself on
the state the failing call left behind, provided the cached generator holds
no StopIteration item. -/
theorem cv_next_split_stop (idxPerm : Nat → Nat → List Nat) (c : Nat)
    (st st2 : CVState) (hstop : cvNoStop st) :
    CVSplitter.next_split idxPerm c st = (.error .stopIteration, st2) →
    (CVSplitter.next_split idxPerm c st2).1 = .error .stopIteration := by
  by_cases hc : c = 0
  · subst hc
    rw [cv_next_split_zero, cv_next_split_zero]
    by_cases hk : st.p.kfold < 2
    · rw [if_pos hk]
      intro h
      rw [Prod.mk.injEq] at h
      exact absurd h.1 (by simp)
    · rw [if_neg hk]
      rcases hg : cvGen0 idxPerm st.p with - | ⟨x, rest⟩
      · simp only [hg, cvAdvanceGen]
        intro h
        rw [Prod.mk.injEq] at h
        obtain ⟨-, rfl⟩ := h
        rw [if_neg hk, hg]
      · cases x with
        | error e =>
          simp only [hg, cvAdvanceGen]
          intro h
          rw [Prod.mk.injEq] at h
          have he : e = PyErr.stopIteration := by
            have := h.1
            injection this
          have hne := kfoldGen_no_stop st.p.kfold
            (idxPerm st.p.seed (cvEras st.p).length) (cvEras st.p).length
            _ (hg ▸ List.mem_cons_self _ _)
          exact absurd (by rw [he]) hne
        | ok f =>
          simp only [hg, cvAdvanceGen]
          intro h
          rw [Prod.mk.injEq] at h
          exact absurd h.1 (by simp)
  · unfold CVSplitter.next_split
    simp only [if_neg hc]
    rcases h1 : st.eras with - | e
    · intro h
      rw [Prod.mk.injEq] at h
      exact absurd h.1 (by simp)
    · rcases h2 : st.cv with - | g
      · intro h
        rw [Prod.mk.injEq] at h
        exact absurd h.1 (by simp)
      · rcases g with - | ⟨x, rest⟩
        · simp only [cvAdvanceGen]
          intro h
          rw [Prod.mk.injEq] at h
          obtain ⟨-, rfl⟩ := h
          simp [cvAdvanceGen]
        · cases x with
          | error e2 =>
            simp only [cvAdvanceGen]
            intro h
            rw [Prod.mk.injEq] at h
            have he : e2 = PyErr.stopIteration := by
              have := h.1
              injection this
            have hne := hstop _ h2 _ (List.mem_cons_self _ _)
            exact absurd (by rw [he]) hne
          | ok f =>
            simp only [cvAdvanceGen]
            intro h
            rw [Prod.mk.injEq] at h
            exact absurd h.1 (by simp)

/-- CVSplitter exhaustion is stable: the count is unchanged and the next
call signals StopIteration again. -/
theorem cv_stop_stable (idxPerm : Nat → Nat → List Nat)
    (s s' : SplitterSt CVState) (hstop : cvNoStop s.inner) :
    CVSplitter.next idxPerm s = (.error .stopIteration, s') →
    s'.count = s.count ∧
      (CVSplitter.next idxPerm s').1 = .error .stopIteration := by
  rw [CVSplitter.next, splitter_next_eq]
  intro h
  split at h
  case isTrue hg =>
    rw [Prod.mk.injEq] at h
    obtain ⟨-, rfl⟩ := h
    exact ⟨rfl, by rw [CVSplitter.next, splitter_next_eq, if_pos hg]⟩
  case isFalse hg =>
    rw [Prod.mk.injEq] at h
    obtain ⟨h1, h2⟩ := h
    have hinner : s'.inner = (CVSplitter.next_split idxPerm s.count s.inner).2 := by
      rw [← h2]
    have hcnt : s'.count = s.count := by
      rw [← h2]
      simp [h1, Except.isOk, Except.toBool]
    refine ⟨hcnt, ?_⟩
    rw [CVSplitter.next, splitter_next_eq, hcnt, hinner, cv_next_split_p,
      if_neg hg]
    exact cv_next_split_stop idxPerm s.count s.inner _ hstop (by rw [← h1])

end Numerox

namespace Numerox

/-- CVSplitter.next_split never installs a StopIteration generator item. -/
theorem cv_next_split_noStop (idxPerm : Nat → Nat → List Nat) (c : Nat)
    (st : CVState) (h : cvNoStop st) :
    cvNoStop (CVSplitter.next_split idxPerm c st).2 := by
  by_cases hc : c = 0
  · subst hc
    rw [cv_next_split_zero]
    by_cases hk : st.p.kfold < 2
    · rw [if_pos hk]
      intro g hg
      exact h g hg
    · rw [if_neg hk]
      rcases hg : cvGen0 idxPerm st.p with - | ⟨x, rest⟩
      · simp only [hg, cvAdvanceGen]
        intro g hgg
        injection hgg with hgg
        subst hgg
        intro y hy
        simp at hy
      · have hall : noStopItems (cvGen0 idxPerm st.p) :=
          kfoldGen_no_stop _ _ _
        have hrest : noStopItems rest := by
          intro y hy
          exact hall _ (hg ▸ List.mem_cons_of_mem _ hy)
        cases x with
        | error e =>
          simp only [hg, cvAdvanceGen]
          intro g hgg
          injection hgg with hgg
          subst hgg
          exact hrest
        | ok f =>
          simp only [hg, cvAdvanceGen]
          intro g hgg
          injection hgg with hgg
          subst hgg
          exact hrest
  · unfold CVSplitter.next_split
    simp only [if_neg hc]
    rcases h1 : st.eras with - | e
    · exact h
    · rcases h2 : st.cv with - | g
      · exact h
      · have hg := h g h2
        rcases g with - | ⟨x, rest⟩
        · simp only [cvAdvanceGen]
          intro g2 hg2
          injection hg2 with hg2
          subst hg2
          intro y hy
          simp at hy
        · have hrest : noStopItems rest := by
            intro y hy
            exact hg _ (List.mem_cons_of_mem _ hy)
          cases x with
          | error e2 =>
            simp only [cvAdvanceGen]
            intro g2 hg2
            injection hg2 with hg2
            subst hg2
            exact hrest
          | ok f =>
            simp only [cvAdvanceGen]
            intro g2 hg2
            injection hg2 with hg2
            subst hg2
            exact hrest

/-- One CVSplitter call preserves the no StopIteration item invariant. -/
theorem cv_next_noStop (idxPerm : Nat → Nat → List Nat)
    (s : SplitterSt CVState) (h : cvNoStop s.inner) :
    cvNoStop ((CVSplitter.next idxPerm s).2).inner := by
  rw [CVSplitter.next, splitter_next_eq]
  split
  · exact h
  · exact cv_next_split_noStop idxPerm s.count s.inner h

/-- The parameter bag is never rewritten by RollSplitter.next_split. -/
theorem roll_next_split_p (c : Nat) (st : RollState) :
    ((RollSplitter.next_split c st).2).p = st.p := by
  unfold RollSplitter.next_split
  by_cases hc : c = 0
  · simp only [if_pos hc]
  · simp only [if_neg hc]
    rcases h1 : st.eras with - | e <;> rfl

/-- A StopIteration raised inside RollSplitter.next_split reproduces itself
on the state the failing call left behind. -/
theorem roll_next_split_stop (c : Nat) (st st2 : RollState) :
    RollSplitter.next_split c st = (.error .stopIteration, st2) →
    (RollSplitter.next_split c st2).1 = .error .stopIteration := by
  unfold RollSplitter.next_split
  by_cases hc : c = 0
  · simp only [if_pos hc]
    intro h
    rw [Prod.mk.injEq] at h
    obtain ⟨h1, rfl⟩ := h
    exact h1
  · simp only [if_neg hc]
    rcases h1 : st.eras with - | e
    · intro h
      rw [Prod.mk.injEq] at h
      exact absurd h.1 (by simp)
    · intro h
      rw [Prod.mk.injEq] at h
      obtain ⟨h2, rfl⟩ := h
      rw [h1]
      exact h2

/-- RollSplitter exhaustion is stable: the count is unchanged and the next
call signals StopIteration again. -/
theorem roll_stop_stable (s s' : SplitterSt RollState) :
    RollSplitter.next s = (.error .stopIteration, s') →
    s'.count = s.count ∧
      (RollSplitter.next s').1 = .error .stopIteration := by
  rw [RollSplitter.next, splitter_next_eq]
  have hg : exceedsMax none s.count = false := rfl
  rw [hg]
  simp only [Bool.false_eq_true, if_false]
  intro h
  rw [Prod.mk.injEq] at h
  obtain ⟨h1, h2⟩ := h
  have hinner : s'.inner = (RollSplitter.next_split s.count s.inner).2 := by
    rw [← h2]
  have hcnt : s'.count = s.count := by
    rw [← h2]
    simp [h1, Except.isOk, Except.toBool]
  refine ⟨hcnt, ?_⟩
  rw [RollSplitter.next, splitter_next_eq]
  have hg2 : exceedsMax none s'.count = false := rfl
  rw [hg2]
  simp only [Bool.false_eq_true, if_false]
  rw [hcnt, hinner]
  exact roll_next_split_stop s.count s.inner _ (by rw [← h1])

end Numerox

namespace Numerox

/-- The first-call branch of IgnoreEraCVSplitter.next_split in terms of the
canonical generator. -/
theorem ig_next_split_zero
    (stratFolds : Nat → Int → Data → List (Except PyErr (List Nat × List Nat)))
    (st : IgnoreState) :
    IgnoreEraCVSplitter.next_split stratFolds 0 st =
      (if st.p.kfold < 2 then (.error .valueError, st)
      else
        let data := if st.p.train_only then st.p.data.getRegion Region.train
                    else st.p.data
        let res := igAdvanceGen data (igGen0 stratFolds st.p)
        (res.1, { st with cv := some res.2 })) := rfl

/-- The parameter bag is never rewritten by IgnoreEraCVSplitter.next_split. -/
theorem ig_next_split_p
    (stratFolds : Nat → Int → Data → List (Except PyErr (List Nat × List Nat)))
    (c : Nat) (st : IgnoreState) :
    ((IgnoreEraCVSplitter.next_split stratFolds c st).2).p = st.p := by
  by_cases hc : c = 0
  · subst hc
    rw [ig_next_split_zero]
    split
    · rfl
    · rfl
  · unfold IgnoreEraCVSplitter.next_split
    rw [if_neg hc]
    rcases h2 : st.cv with - | g <;> rfl

/-- A StopIteration raised inside IgnoreEraCVSplitter.next_split reproduces
itself on the state the failing call left behind, provided the cached
generator holds no StopIteration item. -/
theorem ig_next_split_stop
    (stratFolds : Nat → Int → Data → List (Except PyErr (List Nat × List Nat)))
    (c : Nat) (st st2 : IgnoreState) (hstop : igNoStop st) :
    IgnoreEraCVSplitter.next_split stratFolds c st = (.error .stopIteration, st2) →
    (IgnoreEraCVSplitter.next_split stratFolds c st2).1 = .error .stopIteration := by
  by_cases hc : c = 0
  · subst hc
    rw [ig_next_split_zero, ig_next_split_zero]
    by_cases hk : st.p.kfold < 2
    · rw [if_pos hk]
      intro h
      rw [Prod.mk.injEq] at h
      exact absurd h.1 (by simp)
    · rw [if_neg hk]
      rcases hg : igGen0 stratFolds st.p with - | ⟨x, rest⟩
      · simp only [hg, igAdvanceGen]
        intro h
        rw [Prod.mk.injEq] at h
        obtain ⟨-, rfl⟩ := h
        rw [if_neg hk, hg]
      · cases x with
        | error e =>
          simp only [hg, igAdvanceGen]
          intro h
          rw [Prod.mk.injEq] at h
          have he : e = PyErr.stopIteration := by
            have := h.1
            injection this
          obtain ⟨-, rfl⟩ := h
          rw [if_neg hk, hg]
          simp [igAdvanceGen, he]
        | ok f =>
          simp only [hg, igAdvanceGen]
          intro h
          rw [Prod.mk.injEq] at h
          exact absurd h.1 (by simp)
  · unfold IgnoreEraCVSplitter.next_split
    simp only [if_neg hc]
    rcases h2 : st.cv with - | g
    · intro h
      rw [Prod.mk.injEq] at h
      exact absurd h.1 (by simp)
    · rcases g with - | ⟨x, rest⟩
      · simp only [igAdvanceGen]
        intro h
        rw [Prod.mk.injEq] at h
        obtain ⟨-, rfl⟩ := h
        simp [igAdvanceGen]
      · cases x with
        | error e2 =>
          simp only [igAdvanceGen]
          intro h
          rw [Prod.mk.injEq] at h
          have he : e2 = PyErr.stopIteration := by
            have := h.1
            injection this
          have hne := hstop _ h2 _ (List.mem_cons_self _ _)
          exact absurd (by rw [he]) hne
        | ok f =>
          simp only [igAdvanceGen]
          intro h
          rw [Prod.mk.injEq] at h
          exact absurd h.1 (by simp)

/-- IgnoreEraCVSplitter.next_split never installs a StopIteration item when
the stratified collaborator yields none. -/
theorem ig_next_split_noStop
    (stratFolds : Nat → Int → Data → List (Except PyErr (List Nat × List Nat)))
    (c : Nat) (st : IgnoreState)
    (hsf : noStopItems (igGen0 stratFolds st.p)) (h : igNoStop st) :
    igNoStop (IgnoreEraCVSplitter.next_split stratFolds c st).2 := by
  by_cases hc : c = 0
  · subst hc
    rw [ig_next_split_zero]
    by_cases hk : st.p.kfold < 2
    · rw [if_pos hk]
      exact h
    · rw [if_neg hk]
      rcases hg : igGen0 stratFolds st.p with - | ⟨x, rest⟩
      · simp only [hg, igAdvanceGen]
        intro g hgg
        injection hgg with hgg
        subst hgg
        intro y hy
        simp at hy
      · have hrest : noStopItems rest := by
          intro y hy
          exact hsf _ (hg ▸ List.mem_cons_of_mem _ hy)
        cases x with
        | error e =>
          simp only [hg, igAdvanceGen]
          intro g hgg
          injection hgg with hgg
          subst hgg
          exact hrest
        | ok f =>
          simp only [hg, igAdvanceGen]
          intro g hgg
          injection hgg with hgg
          subst hgg
          exact hrest
  · unfold IgnoreEraCVSplitter.next_split
    simp only [if_neg hc]
    rcases h2 : st.cv with - | g
    · exact h
    · have hg := h g h2
      rcases g with - | ⟨x, rest⟩
      · simp only [igAdvanceGen]
        intro g2 hg2
        injection hg2 with hg2
        subst hg2
        intro y hy
        simp at hy
      · have hrest : noStopItems rest := by
          intro y hy
          exact hg _ (List.mem_cons_of_mem _ hy)
        cases x with
        | error e2 =>
          simp only [igAdvanceGen]
          intro g2 hg2
          injection hg2 with hg2
          subst hg2
          exact hrest
        | ok f =>
          simp only [igAdvanceGen]
          intro g2 hg2
          injection hg2 with hg2
          subst hg2
          exact hrest

/-- IgnoreEraCVSplitter exhaustion is stable under the cache invariant. -/
theorem ig_stop_stable
    (stratFolds : Nat → Int → Data → List (Except PyErr (List Nat × List Nat)))
    (s s' : SplitterSt IgnoreState) (hstop : igNoStop s.inner) :
    IgnoreEraCVSplitter.next stratFolds s = (.error .stopIteration, s') →
    s'.count = s.count ∧
      (IgnoreEraCVSplitter.next stratFolds s').1 = .error .stopIteration := by
  rw [IgnoreEraCVSplitter.next, splitter_next_eq]
  intro h
  split at h
  case isTrue hg =>
    rw [Prod.mk.injEq] at h
    obtain ⟨-, rfl⟩ := h
    exact ⟨rfl, by rw [IgnoreEraCVSplitter.next, splitter_next_eq, if_pos hg]⟩
  case isFalse hg =>
    rw [Prod.mk.injEq] at h
    obtain ⟨h1, h2⟩ := h
    have hinner : s'.inner =
        (IgnoreEraCVSplitter.next_split stratFolds s.count s.inner).2 := by
      rw [← h2]
    have hcnt : s'.count = s.count := by
      rw [← h2]
      simp [h1, Except.isOk, Except.toBool]
    refine ⟨hcnt, ?_⟩
    rw [IgnoreEraCVSplitter.next, splitter_next_eq, hcnt, hinner,
      ig_next_split_p, if_neg hg]
    exact ig_next_split_stop stratFolds s.count s.inner _ hstop (by rw [← h1])

end Numerox

namespace Numerox

/-- Claim C10 (amended): along any run, a call that signals StopIteration
leaves the count unchanged and the following call signals StopIteration
again, for every strategy; for IgnoreEraCVSplitter this is stated under the
collaborator contract that the stratified generator never yields a
StopIteration item (sklearn generators signal exhaustion only by running
out).  Cached state is not always untouched (see the counterexample), but
the rewritten caches are deterministic recomputations, so exhaustion is
stable. -/
theorem stop_iteration_stable :
    (∀ (d : Data) (i : Nat),
        runOutputs TournamentSplitter.next (TournamentSplitter.init d) i =
          .error .stopIteration →
        (iterSt TournamentSplitter.next (TournamentSplitter.init d) (i + 1)).count =
          (iterSt TournamentSplitter.next (TournamentSplitter.init d) i).count ∧
        runOutputs TournamentSplitter.next (TournamentSplitter.init d) (i + 1) =
          .error .stopIteration) ∧
    (∀ (d : Data) (i : Nat),
        runOutputs ValidationSplitter.next (ValidationSplitter.init d) i =
          .error .stopIteration →
        (iterSt ValidationSplitter.next (ValidationSplitter.init d) (i + 1)).count =
          (iterSt ValidationSplitter.next (ValidationSplitter.init d) i).count ∧
        runOutputs ValidationSplitter.next (ValidationSplitter.init d) (i + 1) =
          .error .stopIteration) ∧
    (∀ (d : Data) (i : Nat),
        runOutputs CheatSplitter.next (CheatSplitter.init d) i =
          .error .stopIteration →
        (iterSt CheatSplitter.next (CheatSplitter.init d) (i + 1)).count =
          (iterSt CheatSplitter.next (CheatSplitter.init d) i).count ∧
        runOutputs CheatSplitter.next (CheatSplitter.init d) (i + 1) =
          .error .stopIteration) ∧
    (∀ (shuffle : Nat → List Nat → List Nat) (p : SplitParams) (i : Nat),
        runOutputs (SplitSplitter.next shuffle) (SplitSplitter.init p) i =
          .error .stopIteration →
        (iterSt (SplitSplitter.next shuffle) (SplitSplitter.init p) (i + 1)).count =
          (iterSt (SplitSplitter.next shuffle) (SplitSplitter.init p) i).count ∧
        runOutputs (SplitSplitter.next shuffle) (SplitSplitter.init p) (i + 1) =
          .error .stopIteration) ∧
    (∀ (idxPerm : Nat → Nat → List Nat) (p : CVParams) (i : Nat),
        runOutputs (CVSplitter.next idxPerm) (CVSplitter.init p) i =
          .error .stopIteration →
        (iterSt (CVSplitter.next idxPerm) (CVSplitter.init p) (i + 1)).count =
          (iterSt (CVSplitter.next idxPerm) (CVSplitter.init p) i).count ∧
        runOutputs (CVSplitter.next idxPerm) (CVSplitter.init p) (i + 1) =
          .error .stopIteration) ∧
    (∀ (stratFolds : Nat → Int → Data → List (Except PyErr (List Nat × List Nat)))
        (p : IgnoreParams) (i : Nat),
        (∀ q : IgnoreParams, noStopItems (igGen0 stratFolds q)) →
        runOutputs (IgnoreEraCVSplitter.next stratFolds)
          (IgnoreEraCVSplitter.init p) i = .error .stopIteration →
        (iterSt (IgnoreEraCVSplitter.next stratFolds)
          (IgnoreEraCVSplitter.init p) (i + 1)).count =
          (iterSt (IgnoreEraCVSplitter.next stratFolds)
            (IgnoreEraCVSplitter.init p) i).count ∧
        runOutputs (IgnoreEraCVSplitter.next stratFolds)
          (IgnoreEraCVSplitter.init p) (i + 1) = .error .stopIteration) ∧
    (∀ (p : RollParams) (i : Nat),
        runOutputs RollSplitter.next (RollSplitter.init p) i =
          .error .stopIteration →
        (iterSt RollSplitter.next (RollSplitter.init p) (i + 1)).count =
          (iterSt RollSplitter.next (RollSplitter.init p) i).count ∧
        runOutputs RollSplitter.next (RollSplitter.init p) (i + 1) =
          .error .stopIteration) := by
  refine ⟨?_, ?_, ?_, ?_, ?_, ?_, ?_⟩
  · intro d i hstop'
    rw [runOutputs_eq] at hstop'
    have heq : TournamentSplitter.next
        (iterSt TournamentSplitter.next (TournamentSplitter.init d) i) =
        (.error .stopIteration,
         (TournamentSplitter.next
           (iterSt TournamentSplitter.next (TournamentSplitter.init d) i)).2) := by
      rw [← hstop']
    have hst := stop_stable_of_total (some 0)
      (fun _ => TournamentSplitter.next_split) (fun c st => ⟨_, rfl⟩)
      _ _ heq
    exact ⟨by rw [iterSt_succ]; exact hst.1,
      by rw [runOutputs_eq, iterSt_succ]; exact hst.2⟩
  · intro d i hstop'
    rw [runOutputs_eq] at hstop'
    have heq : ValidationSplitter.next
        (iterSt ValidationSplitter.next (ValidationSplitter.init d) i) =
        (.error .stopIteration,
         (ValidationSplitter.next
           (iterSt ValidationSplitter.next (ValidationSplitter.init d) i)).2) := by
      rw [← hstop']
    have hst := stop_stable_of_total (some 0)
      (fun _ => ValidationSplitter.next_split) (fun c st => ⟨_, rfl⟩)
      _ _ heq
    exact ⟨by rw [iterSt_succ]; exact hst.1,
      by rw [runOutputs_eq, iterSt_succ]; exact hst.2⟩
  · intro d i hstop'
    rw [runOutputs_eq] at hstop'
    have heq : CheatSplitter.next
        (iterSt CheatSplitter.next (CheatSplitter.init d) i) =
        (.error .stopIteration,
         (CheatSplitter.next
           (iterSt CheatSplitter.next (CheatSplitter.init d) i)).2) := by
      rw [← hstop']
    have hst := stop_stable_of_total (some 0)
      (fun _ => CheatSplitter.next_split) (fun c st => ⟨_, rfl⟩)
      _ _ heq
    exact ⟨by rw [iterSt_succ]; exact hst.1,
      by rw [runOutputs_eq, iterSt_succ]; exact hst.2⟩
  · intro shuffle p i hstop'
    rw [runOutputs_eq] at hstop'
    have heq : SplitSplitter.next shuffle
        (iterSt (SplitSplitter.next shuffle) (SplitSplitter.init p) i) =
        (.error .stopIteration,
         (SplitSplitter.next shuffle
           (iterSt (SplitSplitter.next shuffle) (SplitSplitter.init p) i)).2) := by
      rw [← hstop']
    have hst := stop_stable_of_total (some 0)
      (fun _ q => SplitSplitter.next_split shuffle q) (fun c st => ⟨_, rfl⟩)
      _ _ heq
    exact ⟨by rw [iterSt_succ]; exact hst.1,
      by rw [runOutputs_eq, iterSt_succ]; exact hst.2⟩
  · intro idxPerm p i hstop'
    have hinv : ∀ n,
        cvNoStop ((iterSt (CVSplitter.next idxPerm) (CVSplitter.init p) n).inner) := by
      intro n
      induction n with
      | zero => exact fun g hg => Option.noConfusion hg
      | succ n ih =>
        rw [iterSt_succ]
        exact cv_next_noStop idxPerm _ ih
    rw [runOutputs_eq] at hstop'
    have hst := cv_stop_stable idxPerm _ _ (hinv i) (by rw [← hstop'])
    exact ⟨by rw [iterSt_succ]; exact hst.1,
      by rw [runOutputs_eq, iterSt_succ]; exact hst.2⟩
  · intro stratFolds p i hsf hstop'
    have hinv : ∀ n,
        igNoStop ((iterSt (IgnoreEraCVSplitter.next stratFolds)
          (IgnoreEraCVSplitter.init p) n).inner) := by
      intro n
      induction n with
      | zero => exact fun g hg => Option.noConfusion hg
      | succ n ih =>
        rw [iterSt_succ]
        rw [IgnoreEraCVSplitter.next, splitter_next_eq]
        split
        · exact ih
        · exact ig_next_split_noStop stratFolds _ _ (hsf _) ih
    rw [runOutputs_eq] at hstop'
    have hst := ig_stop_stable stratFolds _ _ (hinv i) (by rw [← hstop'])
    exact ⟨by rw [iterSt_succ]; exact hst.1,
      by rw [runOutputs_eq, iterSt_succ]; exact hst.2⟩
  · intro p i hstop'
    rw [runOutputs_eq] at hstop'
    have hst := roll_stop_stable _ _ (by rw [← hstop'])
    exact ⟨by rw [iterSt_succ]; exact hst.1,
      by rw [runOutputs_eq, iterSt_succ]; exact hst.2⟩

/-- Witness for C10: a RollSplitter run that exhausts immediately keeps
count zero and stops again on the next call. -/
theorem stop_iteration_stable_witness :
    (iterSt RollSplitter.next (RollSplitter.init
      ⟨[⟨0, Region.train, 0⟩], 1, 1, 1, true⟩) 1).count =
      (iterSt RollSplitter.next (RollSplitter.init
        ⟨[⟨0, Region.train, 0⟩], 1, 1, 1, true⟩) 0).count ∧
    runOutputs RollSplitter.next (RollSplitter.init
      ⟨[⟨0, Region.train, 0⟩], 1, 1, 1, true⟩) 1 = .error .stopIteration :=
  stop_iteration_stable.2.2.2.2.2.2
    ⟨[⟨0, Region.train, 0⟩], 1, 1, 1, true⟩ 0 (by decide)

end Numerox

namespace Numerox

/-- Claim C5 (amended): constructors validate nothing and accept every
parameter value, merely storing the bag and resetting the count; kfold
below two is rejected only at the first call (ValueError from the fold
generator construction when kfold is 0 or 1, immediate StopIteration from
the count guard when kfold is negative); an oversized fit_fraction is
silently clamped by slicing, leaving the predict partition empty. -/
theorem constructors_accept_all_params :
    (∀ p : SplitParams, SplitSplitter.init p = ⟨0, p⟩) ∧
    (∀ p : CVParams, CVSplitter.init p = ⟨0, ⟨p, none, none⟩⟩) ∧
    (∀ p : IgnoreParams, IgnoreEraCVSplitter.init p = ⟨0, ⟨p, none⟩⟩) ∧
    (∀ p : RollParams, RollSplitter.init p = ⟨0, ⟨p, none⟩⟩) ∧
    (∀ (idxPerm : Nat → Nat → List Nat) (p : CVParams),
        0 ≤ p.kfold → p.kfold < 2 →
        runOutputs (CVSplitter.next idxPerm) (CVSplitter.init p) 0 =
          .error .valueError) ∧
    (∀ (stratFolds : Nat → Int → Data → List (Except PyErr (List Nat × List Nat)))
        (p : IgnoreParams), 0 ≤ p.kfold → p.kfold < 2 →
        runOutputs (IgnoreEraCVSplitter.next stratFolds)
          (IgnoreEraCVSplitter.init p) 0 = .error .valueError) ∧
    (∀ (idxPerm : Nat → Nat → List Nat) (p : CVParams), p.kfold < 0 →
        runOutputs (CVSplitter.next idxPerm) (CVSplitter.init p) 0 =
          .error .stopIteration) ∧
    (∀ (shuffle : Nat → List Nat → List Nat) (p : SplitParams),
        1 ≤ p.fit_fraction →
        (∀ sd l, (shuffle sd l).length = l.length) →
        ∀ pr, (SplitSplitter.next_split shuffle p).1 = .ok pr → pr.2 = []) := by
  refine ⟨fun p => rfl, fun p => rfl, fun p => rfl, fun p => rfl,
    ?_, ?_, ?_, ?_⟩
  · intro idxPerm p h0 h2
    have hg : exceedsMax (some p.kfold) 0 = false := by
      simp only [exceedsMax, gt_iff_lt, decide_eq_false_iff_not, not_lt]
      omega
    show (CVSplitter.next idxPerm (CVSplitter.init p)).1 = _
    rw [CVSplitter.next, splitter_next_eq]
    dsimp only [CVSplitter.init]
    rw [hg, cv_next_split_zero, if_pos h2]
    simp
  · intro stratFolds p h0 h2
    have hg : exceedsMax (some p.kfold) 0 = false := by
      simp only [exceedsMax, gt_iff_lt, decide_eq_false_iff_not, not_lt]
      omega
    show (IgnoreEraCVSplitter.next stratFolds (IgnoreEraCVSplitter.init p)).1 = _
    rw [IgnoreEraCVSplitter.next, splitter_next_eq]
    dsimp only [IgnoreEraCVSplitter.init]
    rw [hg, ig_next_split_zero, if_pos h2]
    simp
  · intro idxPerm p hneg
    have hg : exceedsMax (some p.kfold) 0 = true := by
      simp only [exceedsMax, gt_iff_lt, decide_eq_true_eq]
      omega
    show (CVSplitter.next idxPerm (CVSplitter.init p)).1 = _
    rw [CVSplitter.next, splitter_next_eq]
    dsimp only [CVSplitter.init]
    rw [hg]
    simp
  · intro shuffle p hff hlen pr hpr
    simp only [SplitSplitter.next_split, Except.ok.injEq] at hpr
    subst hpr
    simp only [SplitSplitter.eraSplit]
    have hq : (0 : ℚ) ≤ p.fit_fraction *
        ((Data.unique_era (if p.train_only then p.data.getRegion Region.train
          else p.data)).length : ℚ) + 1/2 := by
      have h1 : (0 : ℚ) ≤ p.fit_fraction := le_trans zero_le_one hff
      positivity
    rw [pyInt_eq_floor hq]
    have hn : ((Data.unique_era (if p.train_only then p.data.getRegion Region.train
        else p.data)).length : Int) ≤
        ⌊p.fit_fraction * ((Data.unique_era (if p.train_only then
          p.data.getRegion Region.train else p.data)).length : ℚ) + 1/2⌋ := by
      rw [Int.le_floor]
      push_cast
      nlinarith [hff, Nat.cast_nonneg (α := ℚ)
        (Data.unique_era (if p.train_only then p.data.getRegion Region.train
          else p.data)).length]
    have hk : (shuffle p.seed (Data.unique_era (if p.train_only then
        p.data.getRegion Region.train else p.data))).length ≤
        pySliceIdx (shuffle p.seed (Data.unique_era (if p.train_only then
          p.data.getRegion Region.train else p.data))).length
          ⌊p.fit_fraction * ((Data.unique_era (if p.train_only then
            p.data.getRegion Region.train else p.data)).length : ℚ) + 1/2⌋ := by
      rw [pySliceIdx, if_pos (le_trans (by positivity) hn)]
      rw [hlen]
      omega
    rw [List.drop_eq_nil_of_le hk]
    simp [Data.era_isin]

/-- Witness for C5: kfold one defers to the first call, kfold minus one
trips the guard, fit_fraction two empties the predict partition. -/
theorem constructors_accept_all_params_witness :
    runOutputs (CVSplitter.next (fun _ n => List.range n))
      (CVSplitter.init ⟨[⟨1, Region.train, 0⟩], 1, 0, true⟩) 0 =
      .error .valueError ∧
    runOutputs (CVSplitter.next (fun _ n => List.range n))
      (CVSplitter.init ⟨[⟨1, Region.train, 0⟩], -1, 0, true⟩) 0 =
      .error .stopIteration ∧
    ((Data.getRegion [⟨1, Region.train, 0⟩] Region.train).era_isin
      (SplitSplitter.eraSplit (fun _ l => l)
        ⟨[⟨1, Region.train, 0⟩], 2, 0, true⟩).2) = [] :=
  ⟨constructors_accept_all_params.2.2.2.2.1 (fun _ n => List.range n)
     ⟨[⟨1, Region.train, 0⟩], 1, 0, true⟩ (by decide) (by decide),
   constructors_accept_all_params.2.2.2.2.2.2.1 (fun _ n => List.range n)
     ⟨[⟨1, Region.train, 0⟩], -1, 0, true⟩ (by decide),
   constructors_accept_all_params.2.2.2.2.2.2.2 (fun _ l => l)
     ⟨[⟨1, Region.train, 0⟩], 2, 0, true⟩ (by decide) (fun _ _ => rfl) _ rfl⟩

end Numerox

namespace Numerox

/-- The first-call output of CVSplitter depends only on the parameters, not
on stale caches. -/
theorem cv_out_zero (idxPerm : Nat → Nat → List Nat) (st : CVState) :
    (CVSplitter.next_split idxPerm 0 st).1 =
    (CVSplitter.next_split idxPerm 0 (⟨st.p, none, none⟩ : CVState)).1 := by
  rw [cv_next_split_zero, cv_next_split_zero]
  dsimp only
  by_cases hk : st.p.kfold < 2
  · rw [if_pos hk, if_pos hk]
  · rw [if_neg hk, if_neg hk]

/-- Outside the invalid kfold branch, the first call overwrites both caches,
so the successor state also depends only on the parameters. -/
theorem cv_state_zero (idxPerm : Nat → Nat → List Nat) (st : CVState)
    (hk : ¬ st.p.kfold < 2) :
    (CVSplitter.next_split idxPerm 0 st).2 =
    (CVSplitter.next_split idxPerm 0 (⟨st.p, none, none⟩ : CVState)).2 := by
  rw [cv_next_split_zero, cv_next_split_zero]
  dsimp only
  rw [if_neg hk, if_neg hk]

/-- A CVSplitter run started from any count-zero state with the same
parameters reproduces the run of a freshly constructed instance. -/
theorem cv_run_from_zero (idxPerm : Nat → Nat → List Nat) (p : CVParams) :
    ∀ (n : Nat) (s : SplitterSt CVState), s.count = 0 → s.inner.p = p →
    runOutputs (CVSplitter.next idxPerm) s n =
    runOutputs (CVSplitter.next idxPerm) (CVSplitter.init p) n := by
  intro n
  induction n with
  | zero =>
    rintro ⟨c, sin⟩ h0 hp
    dsimp only at h0 hp
    subst h0
    show (CVSplitter.next idxPerm ⟨0, sin⟩).1 =
      (CVSplitter.next idxPerm (CVSplitter.init p)).1
    rw [CVSplitter.next, CVSplitter.next, splitter_next_eq, splitter_next_eq]
    dsimp only [CVSplitter.init]
    rw [hp]
    by_cases hg : exceedsMax (some p.kfold) 0 = true
    · rw [if_pos hg, if_pos hg]
    · rw [if_neg hg, if_neg hg]
      dsimp only
      have hout := cv_out_zero idxPerm sin
      rw [hp] at hout
      exact hout
  | succ n ih =>
    rintro ⟨c, sin⟩ h0 hp
    dsimp only at h0 hp
    subst h0
    show runOutputs (CVSplitter.next idxPerm) (CVSplitter.next idxPerm ⟨0, sin⟩).2 n =
      runOutputs (CVSplitter.next idxPerm) (CVSplitter.next idxPerm (CVSplitter.init p)).2 n
    by_cases hg : exceedsMax (some p.kfold) 0 = true
    · have hs : (CVSplitter.next idxPerm ⟨0, sin⟩).2 = ⟨0, sin⟩ := by
        rw [CVSplitter.next, splitter_next_eq]
        dsimp only
        rw [hp, if_pos hg]
      have hi : (CVSplitter.next idxPerm (CVSplitter.init p)).2 =
          CVSplitter.init p := by
        rw [CVSplitter.next, splitter_next_eq]
        dsimp only [CVSplitter.init]
        rw [if_pos hg]
      rw [hs, hi]
      exact ih ⟨0, sin⟩ rfl hp
    · have hs : (CVSplitter.next idxPerm ⟨0, sin⟩).2 =
          ⟨if (CVSplitter.next_split idxPerm 0 sin).1.isOk then 1 else 0,
           (CVSplitter.next_split idxPerm 0 sin).2⟩ := by
        rw [CVSplitter.next, splitter_next_eq]
        dsimp only
        rw [hp, if_neg hg]
      have hi : (CVSplitter.next idxPerm (CVSplitter.init p)).2 =
          ⟨if (CVSplitter.next_split idxPerm 0
              (⟨p, none, none⟩ : CVState)).1.isOk then 1 else 0,
           (CVSplitter.next_split idxPerm 0 (⟨p, none, none⟩ : CVState)).2⟩ := by
        rw [CVSplitter.next, splitter_next_eq]
        dsimp only [CVSplitter.init]
        rw [if_neg hg]
      rw [hs, hi]
      by_cases hk : p.kfold < 2
      · have h1 : CVSplitter.next_split idxPerm 0 sin =
            (.error .valueError, { sin with eras := some (cvEras p) }) := by
          rw [cv_next_split_zero, hp, if_pos hk]
        have h2 : CVSplitter.next_split idxPerm 0 (⟨p, none, none⟩ : CVState) =
            (.error .valueError, ⟨p, some (cvEras p), none⟩) := by
          rw [cv_next_split_zero]
          dsimp only
          rw [if_pos hk]
        rw [h1, h2]
        have ha := ih ⟨0, { sin with eras := some (cvEras p) }⟩ rfl hp
        have hb := ih ⟨0, (⟨p, some (cvEras p), none⟩ : CVState)⟩ rfl rfl
        simp only [Except.isOk, Except.toBool, Bool.false_eq_true, if_false]
        rw [ha, hb]
      · have hk' : ¬ sin.p.kfold < 2 := by rw [hp]; exact hk
        have hout := cv_out_zero idxPerm sin
        have hstate := cv_state_zero idxPerm sin hk'
        rw [hp] at hout hstate
        rw [hout, hstate]
  
/-- The first-call output of IgnoreEraCVSplitter depends only on the
parameters. -/
theorem ig_out_zero
    (stratFolds : Nat → Int → Data → List (Except PyErr (List Nat × List Nat)))
    (st : IgnoreState) :
    (IgnoreEraCVSplitter.next_split stratFolds 0 st).1 =
    (IgnoreEraCVSplitter.next_split stratFolds 0 (⟨st.p, none⟩ : IgnoreState)).1 := by
  rw [ig_next_split_zero, ig_next_split_zero]
  dsimp only
  by_cases hk : st.p.kfold < 2
  · rw [if_pos hk, if_pos hk]
  · rw [if_neg hk, if_neg hk]

/-- Outside the invalid kfold branch, the first IgnoreEraCVSplitter call
overwrites the cache, so the successor state depends only on the
parameters. -/
theorem ig_state_zero
    (stratFolds : Nat → Int → Data → List (Except PyErr (List Nat × List Nat)))
    (st : IgnoreState) (hk : ¬ st.p.kfold < 2) :
    (IgnoreEraCVSplitter.next_split stratFolds 0 st).2 =
    (IgnoreEraCVSplitter.next_split stratFolds 0 (⟨st.p, none⟩ : IgnoreState)).2 := by
  rw [ig_next_split_zero, ig_next_split_zero]
  dsimp only
  rw [if_neg hk, if_neg hk]

/-- An IgnoreEraCVSplitter run started from any count-zero state with the
same parameters reproduces the run of a freshly constructed instance. -/
theorem ig_run_from_zero
    (stratFolds : Nat → Int → Data → List (Except PyErr (List Nat × List Nat)))
    (p : IgnoreParams) :
    ∀ (n : Nat) (s : SplitterSt IgnoreState), s.count = 0 → s.inner.p = p →
    runOutputs (IgnoreEraCVSplitter.next stratFolds) s n =
    runOutputs (IgnoreEraCVSplitter.next stratFolds)
      (IgnoreEraCVSplitter.init p) n := by
  intro n
  induction n with
  | zero =>
    rintro ⟨c, sin⟩ h0 hp
    dsimp only at h0 hp
    subst h0
    show (IgnoreEraCVSplitter.next stratFolds ⟨0, sin⟩).1 =
      (IgnoreEraCVSplitter.next stratFolds (IgnoreEraCVSplitter.init p)).1
    rw [IgnoreEraCVSplitter.next, IgnoreEraCVSplitter.next,
      splitter_next_eq, splitter_next_eq]
    dsimp only [IgnoreEraCVSplitter.init]
    rw [hp]
    by_cases hg : exceedsMax (some p.kfold) 0 = true
    · rw [if_pos hg, if_pos hg]
    · rw [if_neg hg, if_neg hg]
      dsimp only
      have hout := ig_out_zero stratFolds sin
      rw [hp] at hout
      exact hout
  | succ n ih =>
    rintro ⟨c, sin⟩ h0 hp
    dsimp only at h0 hp
    subst h0
    show runOutputs (IgnoreEraCVSplitter.next stratFolds)
        (IgnoreEraCVSplitter.next stratFolds ⟨0, sin⟩).2 n =
      runOutputs (IgnoreEraCVSplitter.next stratFolds)
        (IgnoreEraCVSplitter.next stratFolds (IgnoreEraCVSplitter.init p)).2 n
    by_cases hg : exceedsMax (some p.kfold) 0 = true
    · have hs : (IgnoreEraCVSplitter.next stratFolds ⟨0, sin⟩).2 = ⟨0, sin⟩ := by
        rw [IgnoreEraCVSplitter.next, splitter_next_eq]
        dsimp only
        rw [hp, if_pos hg]
      have hi : (IgnoreEraCVSplitter.next stratFolds
          (IgnoreEraCVSplitter.init p)).2 = IgnoreEraCVSplitter.init p := by
        rw [IgnoreEraCVSplitter.next, splitter_next_eq]
        dsimp only [IgnoreEraCVSplitter.init]
        rw [if_pos hg]
      rw [hs, hi]
      exact ih ⟨0, sin⟩ rfl hp
    · have hs : (IgnoreEraCVSplitter.next stratFolds ⟨0, sin⟩).2 =
          ⟨if (IgnoreEraCVSplitter.next_split stratFolds 0 sin).1.isOk
            then 1 else 0,
           (IgnoreEraCVSplitter.next_split stratFolds 0 sin).2⟩ := by
        rw [IgnoreEraCVSplitter.next, splitter_next_eq]
        dsimp only
        rw [hp, if_neg hg]
      have hi : (IgnoreEraCVSplitter.next stratFolds
          (IgnoreEraCVSplitter.init p)).2 =
          ⟨if (IgnoreEraCVSplitter.next_split stratFolds 0
              (⟨p, none⟩ : IgnoreState)).1.isOk then 1 else 0,
           (IgnoreEraCVSplitter.next_split stratFolds 0
             (⟨p, none⟩ : IgnoreState)).2⟩ := by
        rw [IgnoreEraCVSplitter.next, splitter_next_eq]
        dsimp only [IgnoreEraCVSplitter.init]
        rw [if_neg hg]
      rw [hs, hi]
      by_cases hk : p.kfold < 2
      · have h1 : IgnoreEraCVSplitter.next_split stratFolds 0 sin =
            (.error .valueError, sin) := by
          rw [ig_next_split_zero, hp, if_pos hk]
        have h2 : IgnoreEraCVSplitter.next_split stratFolds 0
            (⟨p, none⟩ : IgnoreState) =
            (.error .valueError, ⟨p, none⟩) := by
          rw [ig_next_split_zero]
          dsimp only
          rw [if_pos hk]
        rw [h1, h2]
        have ha := ih ⟨0, sin⟩ rfl hp
        have hb := ih ⟨0, (⟨p, none⟩ : IgnoreState)⟩ rfl rfl
        simp only [Except.isOk, Except.toBool, Bool.false_eq_true, if_false]
        rw [ha, hb]
      · have hk' : ¬ sin.p.kfold < 2 := by rw [hp]; exact hk
        have hout := ig_out_zero stratFolds sin
        have hstate := ig_state_zero stratFolds sin hk'
        rw [hp] at hout hstate
        rw [hout, hstate]

/-- The first RollSplitter call from any count-zero state with the same
parameters coincides with the first call of a fresh instance, output and
successor state alike: the era cache is fully overwritten. -/
theorem roll_next_from_zero (p : RollParams) (sin : RollState)
    (hp : sin.p = p) :
    RollSplitter.next ⟨0, sin⟩ = RollSplitter.next (RollSplitter.init p) := by
  rw [RollSplitter.next, RollSplitter.next, splitter_next_eq, splitter_next_eq]
  have hns : RollSplitter.next_split 0 sin =
      RollSplitter.next_split 0 (⟨p, none⟩ : RollState) := by
    unfold RollSplitter.next_split
    rw [if_pos rfl, if_pos rfl, hp]
  dsimp only [RollSplitter.init]
  rw [hns]
  rfl

/-- A RollSplitter run started from any count-zero state with the same
parameters reproduces the run of a freshly constructed instance. -/
theorem roll_run_from_zero (p : RollParams) :
    ∀ (n : Nat) (s : SplitterSt RollState), s.count = 0 → s.inner.p = p →
    runOutputs RollSplitter.next s n =
    runOutputs RollSplitter.next (RollSplitter.init p) n := by
  rintro n ⟨c, sin⟩ h0 hp
  dsimp only at h0 hp
  subst h0
  cases n with
  | zero =>
    show (RollSplitter.next ⟨0, sin⟩).1 = _
    rw [roll_next_from_zero p sin hp]
    rfl
  | succ n =>
    show runOutputs RollSplitter.next (RollSplitter.next ⟨0, sin⟩).2 n = _
    rw [roll_next_from_zero p sin hp]
    rfl

/-- Claim C4: resetting any strategy state restores the count to zero, and
a full iteration after the reset reproduces the same output sequence as a
freshly constructed instance with the same parameters, since the first call
of a run recomputes every cache from the stored parameters. -/
theorem reset_reproduces_fresh_run :
    (∀ (σ : Type) (s : SplitterSt σ), (Splitter.reset s).count = 0) ∧
    (∀ (s : SplitterSt Data) (n : Nat),
        runOutputs TournamentSplitter.next (Splitter.reset s) n =
        runOutputs TournamentSplitter.next (TournamentSplitter.init s.inner) n) ∧
    (∀ (s : SplitterSt Data) (n : Nat),
        runOutputs ValidationSplitter.next (Splitter.reset s) n =
        runOutputs ValidationSplitter.next (ValidationSplitter.init s.inner) n) ∧
    (∀ (s : SplitterSt Data) (n : Nat),
        runOutputs CheatSplitter.next (Splitter.reset s) n =
        runOutputs CheatSplitter.next (CheatSplitter.init s.inner) n) ∧
    (∀ (shuffle : Nat → List Nat → List Nat) (s : SplitterSt SplitParams)
        (n : Nat),
        runOutputs (SplitSplitter.next shuffle) (Splitter.reset s) n =
        runOutputs (SplitSplitter.next shuffle) (SplitSplitter.init s.inner) n) ∧
    (∀ (idxPerm : Nat → Nat → List Nat) (s : SplitterSt CVState) (n : Nat),
        runOutputs (CVSplitter.next idxPerm) (Splitter.reset s) n =
        runOutputs (CVSplitter.next idxPerm) (CVSplitter.init s.inner.p) n) ∧
    (∀ (stratFolds : Nat → Int → Data → List (Except PyErr (List Nat × List Nat)))
        (s : SplitterSt IgnoreState) (n : Nat),
        runOutputs (IgnoreEraCVSplitter.next stratFolds) (Splitter.reset s) n =
        runOutputs (IgnoreEraCVSplitter.next stratFolds)
          (IgnoreEraCVSplitter.init s.inner.p) n) ∧
    (∀ (s : SplitterSt RollState) (n : Nat),
        runOutputs RollSplitter.next (Splitter.reset s) n =
        runOutputs RollSplitter.next (RollSplitter.init s.inner.p) n) := by
  refine ⟨fun σ s => rfl, fun s n => rfl, fun s n => rfl, fun s n => rfl,
    fun shuffle s n => rfl, ?_, ?_, ?_⟩
  · intro idxPerm s n
    exact cv_run_from_zero idxPerm s.inner.p n (Splitter.reset s) rfl rfl
  · intro stratFolds s n
    exact ig_run_from_zero stratFolds s.inner.p n (Splitter.reset s) rfl rfl
  · intro s n
    exact roll_run_from_zero s.inner.p n (Splitter.reset s) rfl rfl

end Numerox

namespace Numerox

/-- Claim C8: SplitSplitter picks exactly floor of fit_fraction times the
era count plus one half eras for the fit side (round half up) and the
remaining eras for the predict side, provided the seeded shuffle preserves
the length of the era sequence and fit_fraction lies in the open unit
interval; the returned partition pair selects rows by membership in these
two era slices. -/
theorem split_fraction_rounding (shuffle : Nat → List Nat → List Nat)
    (p : SplitParams)
    (hlen : ∀ sd l, (shuffle sd l).length = l.length)
    (hf0 : 0 < p.fit_fraction) (hf1 : p.fit_fraction < 1) :
    ((SplitSplitter.eraSplit shuffle p).1.length : Int) =
      ⌊p.fit_fraction * ((Data.unique_era (if p.train_only then
        p.data.getRegion Region.train else p.data)).length : ℚ) + 1/2⌋ ∧
    ((SplitSplitter.eraSplit shuffle p).2.length : Int) =
      ((Data.unique_era (if p.train_only then p.data.getRegion Region.train
        else p.data)).length : Int) -
      ⌊p.fit_fraction * ((Data.unique_era (if p.train_only then
        p.data.getRegion Region.train else p.data)).length : ℚ) + 1/2⌋ ∧
    (SplitSplitter.next_split shuffle p).1 =
      .ok ((if p.train_only then p.data.getRegion Region.train
              else p.data).era_isin (SplitSplitter.eraSplit shuffle p).1,
           (if p.train_only then p.data.getRegion Region.train
              else p.data).era_isin (SplitSplitter.eraSplit shuffle p).2) := by
  have hq0 : (0 : ℚ) ≤ p.fit_fraction * ((Data.unique_era (if p.train_only then
      p.data.getRegion Region.train else p.data)).length : ℚ) + 1/2 := by
    have := hf0.le
    positivity
  have hfl0 : 0 ≤ ⌊p.fit_fraction * ((Data.unique_era (if p.train_only then
      p.data.getRegion Region.train else p.data)).length : ℚ) + 1/2⌋ :=
    Int.floor_nonneg.mpr hq0
  have hfln : ⌊p.fit_fraction * ((Data.unique_era (if p.train_only then
      p.data.getRegion Region.train else p.data)).length : ℚ) + 1/2⌋ ≤
      ((Data.unique_era (if p.train_only then p.data.getRegion Region.train
        else p.data)).length : Int) := by
    have hmul : p.fit_fraction * ((Data.unique_era (if p.train_only then
        p.data.getRegion Region.train else p.data)).length : ℚ) ≤
        ((Data.unique_era (if p.train_only then p.data.getRegion Region.train
          else p.data)).length : ℚ) :=
      mul_le_of_le_one_left (Nat.cast_nonneg _) hf1.le
    have hlt : ⌊p.fit_fraction * ((Data.unique_era (if p.train_only then
        p.data.getRegion Region.train else p.data)).length : ℚ) + 1/2⌋ <
        ((Data.unique_era (if p.train_only then p.data.getRegion Region.train
          else p.data)).length : Int) + 1 := by
      rw [Int.floor_lt]
      push_cast
      linarith
    omega
  have hkey : SplitSplitter.eraSplit shuffle p =
      ((shuffle p.seed (Data.unique_era (if p.train_only then
          p.data.getRegion Region.train else p.data))).take
        (⌊p.fit_fraction * ((Data.unique_era (if p.train_only then
          p.data.getRegion Region.train else p.data)).length : ℚ) + 1/2⌋).toNat,
       (shuffle p.seed (Data.unique_era (if p.train_only then
          p.data.getRegion Region.train else p.data))).drop
        (⌊p.fit_fraction * ((Data.unique_era (if p.train_only then
          p.data.getRegion Region.train else p.data)).length : ℚ) + 1/2⌋).toNat) := by
    rw [SplitSplitter.eraSplit]
    rw [pyInt_eq_floor hq0, pySliceIdx, if_pos hfl0]
  refine ⟨?_, ?_, rfl⟩
  · rw [hkey]
    dsimp only
    rw [List.length_take, hlen]
    omega
  · rw [hkey]
    dsimp only
    rw [List.length_drop, hlen]
    omega

/-- Evaluation of the rounding at one half of ten eras. -/
theorem floor_half_of_ten : ⌊(1/2 : ℚ) * ((10 : Nat) : ℚ) + 1/2⌋ = 5 := by
  norm_num

end Numerox

namespace Numerox

/-- Witness for C8: fit_fraction one half over ten distinct train eras
yields exactly five fit eras and five predict eras. -/
theorem split_fraction_rounding_witness :
    ((SplitSplitter.eraSplit (fun _ l => l)
      ⟨(List.range 10).map (fun i => ⟨i, Region.train, i⟩),
        1/2, 0, true⟩).1.length : Int) = 5 ∧
    ((SplitSplitter.eraSplit (fun _ l => l)
      ⟨(List.range 10).map (fun i => ⟨i, Region.train, i⟩),
        1/2, 0, true⟩).2.length : Int) = 5 := by
  have h := split_fraction_rounding (fun _ l => l)
    ⟨(List.range 10).map (fun i => ⟨i, Region.train, i⟩), 1/2, 0, true⟩
    (fun _ _ => rfl) one_half_pos one_half_lt_one
  have hE : (Data.unique_era (if (⟨(List.range 10).map
      (fun i => ⟨i, Region.train, i⟩), 1/2, 0, true⟩ : SplitParams).train_only
      then (⟨(List.range 10).map (fun i => ⟨i, Region.train, i⟩),
        1/2, 0, true⟩ : SplitParams).data.getRegion Region.train
      else (⟨(List.range 10).map (fun i => ⟨i, Region.train, i⟩),
        1/2, 0, true⟩ : SplitParams).data)).length = 10 := by decide
  refine ⟨(hE ▸ h.1).trans floor_half_of_ten, ?_⟩
  have h2 := hE ▸ h.2.1
  exact h2.trans (by rw [floor_half_of_ten]; decide)

end Numerox

namespace Numerox

/-- When the predict range fits inside the era sequence, rollCompute
returns the two position range selections. -/
theorem rollCompute_ok (data : Data) (E : List Nat) (c : Nat) (p : RollParams)
    (hle : (c : Int) * p.step + p.fit_window + p.predict_window ≤
      (E.length : Int)) :
    rollCompute data E c p = .ok
      (data.era_isin (rangeSel ((c : Int) * p.step)
        ((c : Int) * p.step + p.fit_window) 0 E),
       data.era_isin (rangeSel ((c : Int) * p.step + p.fit_window)
        ((c : Int) * p.step + p.fit_window + p.predict_window) 0 E)) := by
  unfold rollCompute rollIndices
  simp only []
  split
  · next htrue => exact absurd htrue (not_lt.mpr hle)
  · rw [rollAssignAux_eq]

/-- When the predict range exceeds the era count, rollCompute signals
StopIteration. -/
theorem rollCompute_stop (data : Data) (E : List Nat) (c : Nat)
    (p : RollParams)
    (h : (E.length : Int) < (c : Int) * p.step + p.fit_window + p.predict_window) :
    rollCompute data E c p = .error .stopIteration := by
  unfold rollCompute rollIndices
  simp only []
  split
  · rfl
  · next hfalse => exact absurd h hfalse

/-- The first-call branch of RollSplitter.next_split in terms of the
canonical era cache. -/
theorem roll_next_split_zero_eq (p : RollParams) (st : RollState)
    (hst : st.p = p) :
    RollSplitter.next_split 0 st =
      (rollCompute (if p.train_only then p.data.getRegion Region.train
        else p.data) (rollEras p) 0 p, ⟨p, some (rollEras p)⟩) := by
  unfold RollSplitter.next_split rollEras
  rw [if_pos rfl, hst]

/-- The cached branch of RollSplitter.next_split on the canonical state. -/
theorem roll_next_split_pos_eq (p : RollParams) (c : Nat) (hc : c ≠ 0) :
    RollSplitter.next_split c (⟨p, some (rollEras p)⟩ : RollState) =
      (rollCompute p.data (rollEras p) c p, ⟨p, some (rollEras p)⟩) := by
  unfold RollSplitter.next_split
  rw [if_neg hc]

/-- States along a RollSplitter run whose iterations so far all fit: the
count advances and the era cache is the canonical sequence. -/
theorem roll_iter (p : RollParams) :
    ∀ i : Nat,
    (∀ j : Nat, j < i → (j : Int) * p.step + p.fit_window + p.predict_window ≤
      ((rollEras p).length : Int)) →
    iterSt RollSplitter.next (RollSplitter.init p) i =
      if i = 0 then RollSplitter.init p else ⟨i, ⟨p, some (rollEras p)⟩⟩ := by
  intro i
  induction i with
  | zero => intro _; rfl
  | succ i ih =>
    intro hall
    rw [iterSt_succ, ih (fun j hj => hall j (by omega))]
    by_cases hi : i = 0
    · subst hi
      rw [if_pos rfl, if_neg (by omega : ¬ (0 + 1 : Nat) = 0)]
      rw [RollSplitter.next, splitter_next_eq]
      have hg : exceedsMax none (RollSplitter.init p).count = false := rfl
      rw [hg]
      simp only [Bool.false_eq_true, if_false]
      have hns := roll_next_split_zero_eq p (RollSplitter.init p).inner rfl
      rw [show (RollSplitter.init p).count = 0 from rfl, hns,
        rollCompute_ok _ _ _ _ (hall 0 (by omega))]
      simp [Except.isOk, Except.toBool, RollSplitter.init]
    · rw [if_neg hi, if_neg (by omega : ¬ (i + 1 : Nat) = 0)]
      rw [RollSplitter.next, splitter_next_eq]
      have hg : exceedsMax none (⟨i, ⟨p, some (rollEras p)⟩⟩ :
          SplitterSt RollState).count = false := rfl
      rw [hg]
      simp only [Bool.false_eq_true, if_false]
      rw [roll_next_split_pos_eq p i hi,
        rollCompute_ok _ _ _ _ (hall i (by omega))]
      simp [Except.isOk, Except.toBool]

end Numerox

namespace Numerox

/-- Claim C6: for RollSplitter with nonnegative step, iteration i selects as
fit eras exactly the distinct eras at positions from i times step (included)
to that plus fit_window (excluded), and as predict eras those at the next
predict_window positions; when the predict range upper bound exceeds the era
count the call signals StopIteration; and the concrete six era example with
fit_window two, predict_window one, step one behaves exactly as the
specification lists (iterations 0, 1, 3 and exhaustion at 4).  Row selection
uses the train filtered data on iteration 0 and the raw data afterwards. -/
theorem roll_window_arithmetic (p : RollParams) (hstep : 0 ≤ p.step) :
    (∀ i : Nat,
      (i : Int) * p.step + p.fit_window + p.predict_window ≤
        ((rollEras p).length : Int) →
      runOutputs RollSplitter.next (RollSplitter.init p) i =
        .ok ((if i = 0 then (if p.train_only then
                p.data.getRegion Region.train else p.data)
              else p.data).era_isin
               (rangeSel ((i : Int) * p.step)
                 ((i : Int) * p.step + p.fit_window) 0 (rollEras p)),
             (if i = 0 then (if p.train_only then
                p.data.getRegion Region.train else p.data)
              else p.data).era_isin
               (rangeSel ((i : Int) * p.step + p.fit_window)
                 ((i : Int) * p.step + p.fit_window + p.predict_window)
                 0 (rollEras p)))) ∧
    (∀ i : Nat,
      ((rollEras p).length : Int) <
        (i : Int) * p.step + p.fit_window + p.predict_window →
      runOutputs RollSplitter.next (RollSplitter.init p) i =
        .error .stopIteration) ∧
    (∀ (a b : Int) (x : Nat),
      x ∈ rangeSel a b 0 (rollEras p) ↔
        ∃ j : Nat, j < (rollEras p).length ∧ a ≤ (j : Int) ∧ (j : Int) < b ∧
          (rollEras p).getD j 0 = x) ∧
    (runOutputs RollSplitter.next (RollSplitter.init
        ⟨(List.range 6).map (fun i => ⟨i, Region.train, i⟩), 2, 1, 1, true⟩) 0 =
      .ok ([⟨0, Region.train, 0⟩, ⟨1, Region.train, 1⟩],
           [⟨2, Region.train, 2⟩]) ∧
     runOutputs RollSplitter.next (RollSplitter.init
        ⟨(List.range 6).map (fun i => ⟨i, Region.train, i⟩), 2, 1, 1, true⟩) 1 =
      .ok ([⟨1, Region.train, 1⟩, ⟨2, Region.train, 2⟩],
           [⟨3, Region.train, 3⟩]) ∧
     runOutputs RollSplitter.next (RollSplitter.init
        ⟨(List.range 6).map (fun i => ⟨i, Region.train, i⟩), 2, 1, 1, true⟩) 3 =
      .ok ([⟨3, Region.train, 3⟩, ⟨4, Region.train, 4⟩],
           [⟨5, Region.train, 5⟩]) ∧
     runOutputs RollSplitter.next (RollSplitter.init
        ⟨(List.range 6).map (fun i => ⟨i, Region.train, i⟩), 2, 1, 1, true⟩) 4 =
      .error .stopIteration) := by
  have hgz : ∀ c : Nat, exceedsMax none c = false := fun c => rfl
  refine ⟨?_, ?_, ?_, by decide, by decide, by decide, by decide⟩
  · intro i hle
    have hall : ∀ j : Nat, j ≤ i →
        (j : Int) * p.step + p.fit_window + p.predict_window ≤
          ((rollEras p).length : Int) := by
      intro j hj
      have hmul : (j : Int) * p.step ≤ (i : Int) * p.step :=
        mul_le_mul_of_nonneg_right (by exact_mod_cast hj) hstep
      linarith
    rw [runOutputs_eq, roll_iter p i (fun j hj => hall j (le_of_lt hj))]
    by_cases hi : i = 0
    · subst hi
      rw [if_pos rfl]
      rw [RollSplitter.next, splitter_next_eq, hgz]
      simp only [Bool.false_eq_true, if_false]
      rw [show (RollSplitter.init p).count = 0 from rfl,
        roll_next_split_zero_eq p (RollSplitter.init p).inner rfl,
        rollCompute_ok _ _ _ _ (hall 0 (by omega))]
      simp
    · rw [if_neg hi]
      rw [RollSplitter.next, splitter_next_eq, hgz]
      simp only [Bool.false_eq_true, if_false]
      rw [roll_next_split_pos_eq p i hi,
        rollCompute_ok _ _ _ _ (hall i le_rfl)]
      simp [hi]
  · intro i hi
    have hex : ∃ j : Nat, ((rollEras p).length : Int) <
        (j : Int) * p.step + p.fit_window + p.predict_window := ⟨i, hi⟩
    have hm := Nat.find_spec hex
    have hmle : Nat.find hex ≤ i := Nat.find_min' hex hi
    have hmin : ∀ j : Nat, j < Nat.find hex →
        (j : Int) * p.step + p.fit_window + p.predict_window ≤
          ((rollEras p).length : Int) := by
      intro j hj
      exact not_lt.mp (Nat.find_min hex hj)
    have hfix : ∀ c : Nat,
        ((rollEras p).length : Int) <
          (c : Int) * p.step + p.fit_window + p.predict_window →
        RollSplitter.next ⟨c, ⟨p, some (rollEras p)⟩⟩ =
          (.error .stopIteration, ⟨c, ⟨p, some (rollEras p)⟩⟩) := by
      intro c hc
      rw [RollSplitter.next, splitter_next_eq, hgz]
      simp only [Bool.false_eq_true, if_false]
      by_cases hc0 : c = 0
      · subst hc0
        rw [roll_next_split_zero_eq p _ rfl, rollCompute_stop _ _ _ _ hc]
        simp [Except.isOk, Except.toBool]
      · rw [roll_next_split_pos_eq p c hc0, rollCompute_stop _ _ _ _ hc]
        simp [Except.isOk, Except.toBool]
    have hfrozen : ∀ k : Nat,
        iterSt RollSplitter.next (RollSplitter.init p) (Nat.find hex + k) =
          if Nat.find hex + k = 0 then RollSplitter.init p
          else ⟨Nat.find hex, ⟨p, some (rollEras p)⟩⟩ := by
      intro k
      induction k with
      | zero =>
        simpa using roll_iter p (Nat.find hex) hmin
      | succ k ihk =>
        rw [show Nat.find hex + (k + 1) = (Nat.find hex + k) + 1 by omega,
          iterSt_succ, ihk]
        by_cases h0 : Nat.find hex + k = 0
        · rw [if_pos h0, if_neg (by omega : ¬ (Nat.find hex + k) + 1 = 0)]
          have hm0 : Nat.find hex = 0 := by omega
          rw [RollSplitter.next, splitter_next_eq, hgz]
          simp only [Bool.false_eq_true, if_false]
          rw [show (RollSplitter.init p).count = 0 from rfl,
            roll_next_split_zero_eq p (RollSplitter.init p).inner rfl,
            rollCompute_stop _ _ _ _ (hm0 ▸ hm)]
          simp [Except.isOk, Except.toBool, RollSplitter.init, hm0]
        · rw [if_neg h0, if_neg (by omega : ¬ (Nat.find hex + k) + 1 = 0),
            hfix (Nat.find hex) hm]
    obtain ⟨k, rfl⟩ : ∃ k, i = Nat.find hex + k :=
      ⟨i - Nat.find hex, by omega⟩
    rw [runOutputs_eq, hfrozen k]
    by_cases h0 : Nat.find hex + k = 0
    · rw [if_pos h0]
      have hm0 : Nat.find hex = 0 := by omega
      rw [RollSplitter.next, splitter_next_eq, hgz]
      simp only [Bool.false_eq_true, if_false]
      rw [show (RollSplitter.init p).count = 0 from rfl,
        roll_next_split_zero_eq p (RollSplitter.init p).inner rfl,
        rollCompute_stop _ _ _ _ (hm0 ▸ hm)]
    · rw [if_neg h0, hfix (Nat.find hex) hm]
  · intro a b x
    have h := mem_rangeSel a b (rollEras p) 0 x
    simpa using h

end Numerox

namespace Numerox

/-- Witness for C6: the six era example exhausts at iteration four via the
general bound, discharging the hypotheses concretely. -/
theorem roll_window_arithmetic_witness :
    runOutputs RollSplitter.next (RollSplitter.init
      ⟨(List.range 6).map (fun i => ⟨i, Region.train, i⟩), 2, 1, 1, true⟩) 4 =
      .error .stopIteration :=
  (roll_window_arithmetic ⟨(List.range 6).map (fun i => ⟨i, Region.train, i⟩),
    2, 1, 1, true⟩ (by decide)).2.1 4 (by decide)

end Numerox

namespace Numerox

/-- With kfold at least two but fewer distinct eras than kfold, every call
of a CVSplitter run re-enters the first-call branch (the counter is only
incremented on success), recreates the fold generator and re-raises the
ValueError sklearn KFold.split signals when n_splits exceeds the sample
count; no pair is ever produced and StopIteration is never reached. -/
theorem cv_too_few_eras_valueError (idxPerm : Nat → Nat → List Nat)
    (p : CVParams) (hk2 : 2 ≤ p.kfold)
    (hn : ((cvEras p).length : Int) < p.kfold) :
    ∀ i : Nat, runOutputs (CVSplitter.next idxPerm) (CVSplitter.init p) i =
      .error .valueError := by
  have hk2' : ¬ p.kfold < 2 := by omega
  have hguard : exceedsMax (some p.kfold) 0 = false := by
    simp only [exceedsMax, gt_iff_lt, decide_eq_false_iff_not, not_lt]
    omega
  have hgen : cvGen0 idxPerm p = [.error .valueError] := by
    unfold cvGen0 kfoldGen
    rw [if_pos hn]
  have hstep : ∀ e c, CVSplitter.next idxPerm ⟨0, ⟨p, e, c⟩⟩ =
      (.error .valueError, ⟨0, ⟨p, some (cvEras p), some []⟩⟩) := by
    intro e c
    have hns : CVSplitter.next_split idxPerm 0 (⟨p, e, c⟩ : CVState) =
        (.error .valueError, ⟨p, some (cvEras p), some []⟩) := by
      rw [cv_next_split_zero]
      dsimp only
      rw [if_neg hk2', hgen]
      simp [cvAdvanceGen]
    rw [CVSplitter.next, splitter_next_eq]
    dsimp only
    rw [hguard, hns]
    simp [Except.isOk, Except.toBool]
  have hinit : CVSplitter.init p = ⟨0, ⟨p, none, none⟩⟩ := rfl
  have hiter : ∀ i : Nat,
      iterSt (CVSplitter.next idxPerm) (CVSplitter.init p) i =
        (if i = 0 then CVSplitter.init p
         else ⟨0, ⟨p, some (cvEras p), some []⟩⟩) := by
    intro i
    induction i with
    | zero => rfl
    | succ i ih =>
      rw [if_neg (Nat.succ_ne_zero i), iterSt_succ, ih]
      by_cases hi0 : i = 0
      · rw [if_pos hi0, hinit, hstep]
      · rw [if_neg hi0, hstep]
  intro i
  rw [runOutputs_eq, hiter]
  by_cases hi0 : i = 0
  · rw [if_pos hi0, hinit, hstep]
  · rw [if_neg hi0, hstep]

/-- Claim C3 (amended): with kfold at least two, when the cached era
sequence holds at least kfold distinct eras a full CVSplitter run yields
exactly kfold partition pairs and the call after that signals
StopIteration; with fewer distinct eras than kfold no call ever yields a
pair or StopIteration: the counter never advances and every call raises
ValueError from the recreated fold generator. -/
theorem cv_kfold_run_dichotomy (idxPerm : Nat → Nat → List Nat)
    (p : CVParams) (hk2 : 2 ≤ p.kfold) :
    (p.kfold ≤ ((cvEras p).length : Int) →
      (∀ i : Nat, i < p.kfold.toNat → ∃ pr,
        runOutputs (CVSplitter.next idxPerm) (CVSplitter.init p) i = .ok pr) ∧
      runOutputs (CVSplitter.next idxPerm) (CVSplitter.init p)
        p.kfold.toNat = .error .stopIteration) ∧
    (((cvEras p).length : Int) < p.kfold →
      ∀ i : Nat, runOutputs (CVSplitter.next idxPerm) (CVSplitter.init p) i =
        .error .valueError) :=
  ⟨fun hkn => cv_kfold_run_length idxPerm p hk2 hkn,
   fun hn => cv_too_few_eras_valueError idxPerm p hk2 hn⟩

/-- Witness for C3: kfold two over two train eras signals StopIteration at
the third call, while kfold two over a single train era raises ValueError
at the first call. -/
theorem cv_kfold_run_dichotomy_witness :
    runOutputs (CVSplitter.next (fun _ n => List.range n))
      (CVSplitter.init ⟨[⟨1, Region.train, 0⟩, ⟨2, Region.train, 1⟩],
        2, 0, true⟩) 2 = .error .stopIteration ∧
    runOutputs (CVSplitter.next (fun _ n => List.range n))
      (CVSplitter.init ⟨[⟨1, Region.train, 0⟩], 2, 0, true⟩) 0 =
      .error .valueError :=
  ⟨((cv_kfold_run_dichotomy (fun _ n => List.range n)
      ⟨[⟨1, Region.train, 0⟩, ⟨2, Region.train, 1⟩], 2, 0, true⟩
      (by decide)).1 (by decide)).2,
   (cv_kfold_run_dichotomy (fun _ n => List.range n)
      ⟨[⟨1, Region.train, 0⟩], 2, 0, true⟩ (by decide)).2 (by decide) 0⟩

/-- Claim C3 counterexample: a CVSplitter with kfold three over two distinct
train eras returns no partition pair on any of the first four calls and the
fourth call raises ValueError rather than StopIteration; the counter is
still zero after four calls, so each call rebuilds the overfull fold
generator and re-raises its ValueError forever. -/
theorem cv_kfold_exceeds_eras_counterexample :
    runOutputs (CVSplitter.next (fun _ n => List.range n))
      (CVSplitter.init ⟨[⟨1, Region.train, 0⟩, ⟨2, Region.train, 1⟩],
        3, 0, true⟩) 0 = .error .valueError ∧
    runOutputs (CVSplitter.next (fun _ n => List.range n))
      (CVSplitter.init ⟨[⟨1, Region.train, 0⟩, ⟨2, Region.train, 1⟩],
        3, 0, true⟩) 1 = .error .valueError ∧
    runOutputs (CVSplitter.next (fun _ n => List.range n))
      (CVSplitter.init ⟨[⟨1, Region.train, 0⟩, ⟨2, Region.train, 1⟩],
        3, 0, true⟩) 2 = .error .valueError ∧
    runOutputs (CVSplitter.next (fun _ n => List.range n))
      (CVSplitter.init ⟨[⟨1, Region.train, 0⟩, ⟨2, Region.train, 1⟩],
        3, 0, true⟩) 3 = .error .valueError ∧
    (iterSt (CVSplitter.next (fun _ n => List.range n))
      (CVSplitter.init ⟨[⟨1, Region.train, 0⟩, ⟨2, Region.train, 1⟩],
        3, 0, true⟩) 4).count = 0 :=
  ⟨by decide, by decide, by decide, by decide, by decide⟩

end Numerox
